import Mathlib

/-!
Shallow embedding of the apartment-placement engine
(`plan_mix_solver/solver.py`, class `ApartmentSolver`) and proofs about it.

Modelling conventions:
* Python `float` values are modelled as exact rationals `ℚ`.  All quantities
  handled by the solver (sizes with `.5` remainders, compactness `k/2`,
  descriptor ratios, variances, scores) are exact small rationals, for which
  float arithmetic in the source computes the same values.
* Batteries marks `Rat.add/mul/sub/inv` `@[irreducible]`, which blocks kernel
  evaluation by `decide`.  We therefore compute with transparent wrappers
  (`qadd`, `qmul`, ...) built on `Rat.divInt`; each wrapper is proved equal to
  the corresponding field operation (`qadd_eq` etc.), so theorems can be
  stated and proved over the ordinary `ℚ` operations.
* Python's stable `list.sort` is modelled by `List.insertionSort`, which is
  also stable; a stable sort of a list under a total preorder is unique, so
  the two agree element by element.
* `numpy` grids are lists of rows (`grid[y][x]`); `grid[y, x] = v` becomes a
  functional `List.set` update.  Coordinates are `Int` pairs `(x, y)` because
  neighbour offsets may leave the grid; every grid read in the source is
  guarded by a bounds check, which we reproduce.
* Python `dict`s keyed by the apartment ids `1..n` in insertion order are
  modelled as lists, the apartment with id `k+1` sitting at position `k`;
  Python `set`s used only for membership tests are modelled as lists queried
  with `∈`.
* The `while` loop of `_flood_fill` and the recursion of `_backtrack` are
  modelled with explicit fuel so that they reduce in the kernel.  The fuel
  arguments are chosen ≥ the exact termination measure of the source loops
  (for the flood fill, the total number of queue pops is bounded by
  1 + 4·target; for the backtracking, the recursion depth is bounded by the
  number of apartments left), so the fuel-exhaustion branches are unreachable.
-/

namespace PlanMix

/-! ### Transparent rational arithmetic -/

/-- Addition on `ℚ` via `Rat.divInt`, kernel-computable (see module docstring). -/
def qadd (a b : ℚ) : ℚ := Rat.divInt (a.num * b.den + b.num * a.den) (a.den * b.den)

/-- Negation on `ℚ` via `Rat.divInt`, kernel-computable. -/
def qneg (a : ℚ) : ℚ := Rat.divInt (-a.num) a.den

/-- Subtraction on `ℚ` via `Rat.divInt`, kernel-computable. -/
def qsub (a b : ℚ) : ℚ := qadd a (qneg b)

/-- Multiplication on `ℚ` via `Rat.divInt`, kernel-computable. -/
def qmul (a b : ℚ) : ℚ := Rat.divInt (a.num * b.num) (a.den * b.den)

/-- Division on `ℚ` via `Rat.divInt`, kernel-computable.  Division by zero
yields `0`, as in Mathlib's `ℚ` (the source never divides by zero on the
runs we consider). -/
def qdiv (a b : ℚ) : ℚ := Rat.divInt (a.num * b.den) (a.den * b.num)

/-- Squaring, kernel-computable. -/
def qsq (a : ℚ) : ℚ := qmul a a

/-- Python's `max` on two rationals (value-equal to `max`). -/
def qmax (a b : ℚ) : ℚ := if a ≤ b then b else a

/-- Python's `min` on two rationals (value-equal to `min`). -/
def qmin (a b : ℚ) : ℚ := if a ≤ b then a else b

/-- Python's `sum` of a list of floats (a left fold starting at 0). -/
def qsum (l : List ℚ) : ℚ := l.foldl qadd 0

/-- Absolute value on `ℚ`, kernel-computable. -/
def qabs (a : ℚ) : ℚ := if a < 0 then qneg a else a

/-- Python's `int(q)` (truncation toward zero) on an exact rational. -/
def pyInt (q : ℚ) : ℤ := q.num.tdiv q.den

/-- Mathematical floor of a rational (`np.floor`), kernel-computable. -/
def qfloorZ (q : ℚ) : ℤ := q.num.fdiv q.den

/-- Python's `round` (round half to even) on an exact rational. -/
def pyRound (q : ℚ) : ℤ :=
  let f := qfloorZ q
  let r := qsub q (f : ℚ)
  if r < Rat.divInt 1 2 then f
  else if Rat.divInt 1 2 < r then f + 1
  else if f % 2 = 0 then f else f + 1

/-- Python's `max`/`min` on machine integers, written with an explicit `if` so
that they reduce in the kernel. -/
def imax (a b : ℤ) : ℤ := if a ≤ b then b else a

/-- Minimum of two integers, kernel-computable. -/
def imin (a b : ℤ) : ℤ := if a ≤ b then a else b

/-! ### Data model -/

/-- A cell coordinate `(x, y)`.  Integer (not `ℕ`) because neighbour offsets
may step outside the grid; the source always bounds-checks before reading. -/
abbrev Pos := ℤ × ℤ

/-- A labelled grid, row-major: `grid[y][x]`, `0` free, `-1` circulation,
positive = apartment id (mirrors the numpy array of the source). -/
abbrev Grid := List (List ℤ)

/-- Read `grid[y, x]`; the source only reads in-bounds cells, out-of-range
indices default to `0` here. -/
def Grid.get (g : Grid) (y x : ℤ) : ℤ := (g.getD y.toNat []).getD x.toNat 0

/-- Functional update `grid[y, x] = v` (no-op out of range, like the reads the
source never performs there). -/
def Grid.setCell (g : Grid) (y x : ℤ) (v : ℤ) : Grid :=
  g.set y.toNat ((g.getD y.toNat []).set x.toNat v)

/-- The 4-neighbourhood offsets, in the iteration order of the source:
`[(0, 1), (1, 0), (0, -1), (-1, 0)]` as `(dx, dy)`. -/
def dirs : List Pos := [(0, 1), (1, 0), (0, -1), (-1, 0)]

/-- Shape descriptors of a region (`_calculate_shape_descriptors` output). -/
structure ShapeDesc where
  aspectRatio : ℚ
  normalizedPerimeter : ℚ
  momentRatio : ℚ
deriving DecidableEq

/-- A placed apartment record (the per-id dict built in `_backtrack` and
extended in `_add_half_cells` / `_save_solution`).  The `fineCells` and
`compactness` keys are absent until those phases run, hence `Option`. -/
structure Apt where
  type : String
  size : ℚ
  cells : List Pos
  facadeCount : ℕ
  usesHalfCell : Bool
  halfSide : Option String
  shapeDescriptors : ShapeDesc
  fineCells : Option (List Pos) := none
  compactness : Option ℚ := none
deriving DecidableEq

/-- Solution metadata (the `metadata` dict of `_save_solution`). -/
structure Metadata where
  gridX : ℚ
  gridY : ℚ
  nCellsX : ℤ
  nCellsY : ℤ
  score : ℚ
  avgCompactness : ℚ
  shapeVariance : ℚ
  useFineGrid : Bool
deriving DecidableEq

/-- A recorded solution.  Apartment with id `k + 1` sits at list position `k`
(the Python dict is keyed `1..n` in insertion order). -/
structure Solution where
  grid : Grid
  fineGrid : Option Grid
  apartments : List Apt
  circulationCells : List Pos
  metadata : Metadata
deriving DecidableEq

/-- The mutable solver state (`self.solutions` and `self._seen_signatures`).
Signatures are kept as the canonical integer grids themselves: equality of the
`int16` byte serialisations used by the source is equality of these matrices
(all codes lie in `{-1, 0, 1, ..., #types}` and one run uses one fixed shape). -/
structure SolverState where
  solutions : List Solution
  seenSignatures : List Grid
deriving DecidableEq

/-- Construction-time configuration (the arguments of `ApartmentSolver.__init__`).
A `dict` argument for `apartments_to_place` is its item list here; sets used
only for membership are lists. -/
structure Config where
  gridX : ℚ
  gridY : ℚ
  nCellsX : ℤ
  nCellsY : ℤ
  circulationCells : List Pos
  apartmentList : List (String × ℚ)
  maxSolutions : ℕ
  minFacadeCells : Option (List (String × ℤ))
  useFineGrid : Bool
  fineCirculationCells : Option (List Pos)
  maxEnfiladeCellsPerApartment : Option ℕ
  shapeVarianceWeight : ℚ
  varianceFilterThreshold : ℚ
  maxPlacementTries : ℕ
deriving DecidableEq

/-- Coarse cells partially blocked by fine circulation: each fine circulation
sub-cell whose coarse cell `(fx // 2, fy // 2)` is not itself circulation marks
that coarse cell (a list queried only with `∈`, standing for the Python set). -/
def partiallyBlockedCells (cfg : Config) : List Pos :=
  match cfg.fineCirculationCells with
  | none => []
  | some fcs =>
    (fcs.filter (fun f => decide ((f.1.fdiv 2, f.2.fdiv 2) ∉ cfg.circulationCells))).map
      (fun f => (f.1.fdiv 2, f.2.fdiv 2))

/-- Parse the digit string of a decimal literal (`float(...)` on inputs of the
shape `"3"` or `"3.5"`, the only ones the solver feeds it). -/
def parseDecimal (cs : List Char) : ℚ :=
  let digits : List Char → ℕ := fun l => l.foldl (fun acc c => acc * 10 + (c.toNat - 48)) 0
  let intPart := cs.takeWhile (fun c => c ≠ '.')
  let fracPart := (cs.dropWhile (fun c => c ≠ '.')).drop 1
  qadd ((digits intPart : ℕ) : ℚ) (qdiv ((digits fracPart : ℕ) : ℚ) (((10 ^ fracPart.length : ℕ) : ℕ) : ℚ))

/-- The numeric room-count prefix of a type name:
`float(apt_type.replace('p', '').split('_')[0])`. -/
def parseRoomCount (aptType : String) : ℚ :=
  parseDecimal ((aptType.data.filter (fun c => c ≠ 'p')).takeWhile (fun c => c ≠ '_'))

/-- Facade requirement per type, as computed in `__init__`: the supplied
override (defaulting to 0 for a type missing from the override map), else
`max(0, round(roomCount - 1.5))` with Python's round-half-to-even. -/
def facadeRequirements (cfg : Config) (aptType : String) : ℤ :=
  match cfg.minFacadeCells with
  | some m => (m.lookup aptType).getD 0
  | none =>
    let nPieces := parseRoomCount aptType
    let required := pyRound (qsub nPieces (Rat.divInt 3 2))
    if required < 0 then 0 else required

/-- The `abs(size - int(size) - 0.5) < 1e-9` test for a `.5` fractional size. -/
def isHalfSize (size : ℚ) : Bool :=
  qabs (qsub (qsub size ((pyInt size : ℤ) : ℚ)) (Rat.divInt 1 2)) < Rat.divInt 1 1000000000

/-! ### Region finder (`_find_all_placements`, `_flood_fill`) -/

/-- One bounds test `0 <= x < n_cells_x and 0 <= y < n_cells_y`. -/
def inGridBounds (cfg : Config) (p : Pos) : Prop :=
  0 ≤ p.1 ∧ p.1 < cfg.nCellsX ∧ 0 ≤ p.2 ∧ p.2 < cfg.nCellsY

instance (cfg : Config) (p : Pos) : Decidable (inGridBounds cfg p) := by
  unfold inGridBounds; infer_instance

/-- The body of the `while` loop of `_flood_fill`, with explicit fuel.  Each
iteration pops one queue entry; a pop enqueues (4 entries) only when a cell is
accepted, and at most `target` cells are ever accepted, so the total number of
pops is at most `1 + 4 · target` and the fuel used below never runs out. -/
def floodFillLoop (cfg : Config) (grid : Grid) (targetSize : ℤ) :
    Nat → List Pos → List Pos → List Pos → List Pos
  | 0, _, cells, _ => cells
  | fuel + 1, visited, cells, queue =>
    if (cells.length : ℤ) < targetSize then
      match queue with
      | [] => cells
      | p :: rest =>
        if p ∈ visited then
          floodFillLoop cfg grid targetSize fuel visited cells rest
        else if ¬ inGridBounds cfg p then
          floodFillLoop cfg grid targetSize fuel visited cells rest
        else if Grid.get grid p.2 p.1 ≠ 0 then
          floodFillLoop cfg grid targetSize fuel visited cells rest
        else if p ∈ partiallyBlockedCells cfg then
          floodFillLoop cfg grid targetSize fuel visited cells rest
        else
          floodFillLoop cfg grid targetSize fuel (p :: visited) (cells ++ [p])
            (rest ++ (dirs.map (fun d => (p.1 + d.1, p.2 + d.2))).filter
              (fun n => decide (n ∉ p :: visited)))
    else cells

/-- Breadth-first flood fill from `start` collecting `targetSize` cells
(`_flood_fill`): `some cells` on success, `none` otherwise. -/
def floodFill (cfg : Config) (grid : Grid) (start : Pos) (targetSize : ℤ) :
    Option (List Pos) :=
  let cells := floodFillLoop cfg grid targetSize (4 * targetSize.toNat + 2) [] [] [start]
  if (cells.length : ℤ) = targetSize then some cells else none

/-- Candidate flood-fill start cells with their (near-circulation, on-facade)
flags, in row-major generation order. -/
def candidateStarts (cfg : Config) (grid : Grid) : List (Pos × Bool × Bool) :=
  (List.range cfg.nCellsY.toNat).flatMap (fun y =>
    (List.range cfg.nCellsX.toNat).filterMap (fun x =>
      let p : Pos := ((x : ℤ), (y : ℤ))
      if Grid.get grid p.2 p.1 ≠ 0 then none
      else if p ∈ partiallyBlockedCells cfg then none
      else
        let nearCirc := dirs.any (fun d => decide ((p.1 + d.1, p.2 + d.2) ∈ cfg.circulationCells))
        let onFacade := decide (p.1 = 0 ∨ p.1 = cfg.nCellsX - 1 ∨ p.2 = 0 ∨ p.2 = cfg.nCellsY - 1)
        some (p, nearCirc, onFacade)))

/-- Numeric encoding of the Python sort key `(not near_circ, not on_facade)`
(second component is binary, so lexicographic = numeric). -/
def startSortKey (t : Pos × Bool × Bool) : ℕ :=
  (if t.2.1 then 0 else 2) + (if t.2.2 then 0 else 1)

/-- Set equality of two cell lists (`frozenset(p) == frozenset(q)`). -/
def sameCellSet (a b : List Pos) : Bool :=
  decide ((∀ c ∈ a, c ∈ b) ∧ ∀ c ∈ b, c ∈ a)

/-- All distinct placements of `floor(size)` cells (`_find_all_placements`),
flood-filling from prioritised starts and deduplicating by set equality. -/
def findAllPlacements (cfg : Config) (grid : Grid) (size : ℚ) : List (List Pos) :=
  let targetCells : ℤ := qfloorZ size
  let starts := List.insertionSort (fun a b => startSortKey a ≤ startSortKey b)
    (candidateStarts cfg grid)
  starts.foldl (fun placements s =>
    match floodFill cfg grid s.1 targetCells with
    | none => placements
    | some placement =>
      if placement ≠ [] ∧ (placement.length : ℤ) = targetCells then
        if placements.any (fun p => sameCellSet p placement) then placements
        else placements ++ [placement]
      else placements) []

/-! ### Constraint checker and geometry (`_check_constraints` etc.) -/

/-- Does some cell of the region 4-touch a circulation cell
(`_touches_circulation`)? -/
def touchesCirculation (cfg : Config) (cells : List Pos) : Bool :=
  cells.any (fun c => dirs.any (fun d => decide ((c.1 + d.1, c.2 + d.2) ∈ cfg.circulationCells)))

/-- Number of region cells on the outer grid boundary (`_count_facade_cells`). -/
def countFacadeCells (cfg : Config) (cells : List Pos) : ℕ :=
  (cells.filter (fun c =>
    decide (c.1 = 0 ∨ c.1 = cfg.nCellsX - 1 ∨ c.2 = 0 ∨ c.2 = cfg.nCellsY - 1))).length

/-- Compactness = number of internal shared edges (`_calculate_compactness`):
every directed contact is counted, then divided by 2. -/
def calculateCompactness (cells : List Pos) : ℚ :=
  let contacts := (cells.map (fun c =>
    (dirs.filter (fun d => decide ((c.1 + d.1, c.2 + d.2) ∈ cells))).length)).sum
  qdiv ((contacts : ℕ) : ℚ) 2

/-- Corridor cells: exactly two in-region 4-neighbours and those collinear
(`_count_enfilade_cells`). -/
def countEnfiladeCells (cells : List Pos) : ℕ :=
  (cells.filter (fun c =>
    let neighbors := dirs.filterMap (fun d =>
      let n : Pos := (c.1 + d.1, c.2 + d.2)
      if n ∈ cells then some n else none)
    match neighbors with
    | [a, b] => decide (a.1 = b.1 ∨ a.2 = b.2)
    | _ => false)).length

/-- Pick the boundary side with the longest exposed frontier
(`_select_half_side_any_boundary`): first strict maximum in the fixed order
top, bottom, left, right; `none` if every count is zero. -/
def selectHalfSideAnyBoundary (cells : List Pos) : Option String :=
  let count : ℤ → ℤ → ℕ := fun dx dy =>
    (cells.filter (fun c => decide ((c.1 + dx, c.2 + dy) ∉ cells))).length
  let counts : List (String × ℕ) :=
    [("top", count 0 (-1)), ("bottom", count 0 1), ("left", count (-1) 0), ("right", count 1 0)]
  let best := counts.foldl
    (fun (acc : Option String × ℤ) sc => if (sc.2 : ℤ) > acc.2 then (some sc.1, (sc.2 : ℤ)) else acc)
    (none, -1)
  if best.2 > 0 then best.1 else none

/-- All constraints of `_check_constraints`: circulation contact, facade count,
optional enfilade limit.  (The half-cell block at source lines 377-384 only
`pass`es and is reproduced as dead code by omission; `grid` and `apt_id` are
received but never used there either.) -/
def checkConstraints (cfg : Config) (grid : Grid) (aptId : ℤ) (cells : List Pos)
    (aptType : String) : Bool :=
  if ¬ touchesCirculation cfg cells then false
  else if (countFacadeCells cfg cells : ℤ) < facadeRequirements cfg aptType then false
  else
    match cfg.maxEnfiladeCellsPerApartment with
    | some m => if m < countEnfiladeCells cells then false else true
    | none => true

/-! ### Shape descriptors, variance, similarity filter -/

/-- Geometric descriptors of a region (`_calculate_shape_descriptors`). -/
def calculateShapeDescriptors (cells : List Pos) : ShapeDesc :=
  if cells = [] then ⟨1, 0, 1⟩
  else
    let xs := cells.map (fun c => c.1)
    let ys := cells.map (fun c => c.2)
    let minX := xs.foldl imin (xs.headD 0)
    let maxX := xs.foldl imax (xs.headD 0)
    let minY := ys.foldl imin (ys.headD 0)
    let maxY := ys.foldl imax (ys.headD 0)
    let width := maxX - minX + 1
    let height := maxY - minY + 1
    let aspectRatio := qdiv ((imax width height : ℤ) : ℚ) ((imax (imin width height) 1 : ℤ) : ℚ)
    let perimeter := (cells.map (fun c =>
      (dirs.filter (fun d => decide ((c.1 + d.1, c.2 + d.2) ∉ cells))).length)).sum
    let area := cells.length
    let normalizedPerimeter := if 0 < area then qdiv ((perimeter : ℕ) : ℚ) ((area : ℕ) : ℚ) else 0
    let cx := qdiv ((xs.sum : ℤ) : ℚ) ((xs.length : ℕ) : ℚ)
    let cy := qdiv ((ys.sum : ℤ) : ℚ) ((ys.length : ℕ) : ℚ)
    let ixx := qsum (cells.map (fun c => qsq (qsub ((c.2 : ℤ) : ℚ) cy)))
    let iyy := qsum (cells.map (fun c => qsq (qsub ((c.1 : ℤ) : ℚ) cx)))
    let momentRatio := qdiv (qmax ixx iyy) (qmax (qmin ixx iyy) (Rat.divInt 1 1000000))
    ⟨aspectRatio, normalizedPerimeter, momentRatio⟩

/-- Population variance of a list of values (one axis of
`_calculate_shape_variance`). -/
def qvarianceOf (values : List ℚ) : ℚ :=
  let mean := qdiv (qsum values) ((values.length : ℕ) : ℚ)
  qdiv (qsum (values.map (fun v => qsq (qsub v mean)))) ((values.length : ℕ) : ℚ)

/-- Combined shape variance: mean over the three descriptor axes of the
per-axis population variance; `0` for at most one descriptor. -/
def calculateShapeVariance (sds : List ShapeDesc) : ℚ :=
  if sds.length ≤ 1 then 0
  else
    let variances := [qvarianceOf (sds.map (fun d => d.aspectRatio)),
                      qvarianceOf (sds.map (fun d => d.normalizedPerimeter)),
                      qvarianceOf (sds.map (fun d => d.momentRatio))]
    qdiv (qsum variances) ((variances.length : ℕ) : ℚ)

/-- Axis-wise mean of a list of descriptors. -/
def descriptorMeans (ds : List ShapeDesc) : ShapeDesc :=
  ⟨qdiv (qsum (ds.map (fun d => d.aspectRatio))) ((ds.length : ℕ) : ℚ),
   qdiv (qsum (ds.map (fun d => d.normalizedPerimeter))) ((ds.length : ℕ) : ℚ),
   qdiv (qsum (ds.map (fun d => d.momentRatio))) ((ds.length : ℕ) : ℚ)⟩

/-- Squared Euclidean distance over the three raw descriptor axes. -/
def descDistSq (a b : ShapeDesc) : ℚ :=
  qadd (qadd (qsq (qsub a.aspectRatio b.aspectRatio))
             (qsq (qsub a.normalizedPerimeter b.normalizedPerimeter)))
       (qsq (qsub a.momentRatio b.momentRatio))

/-- The distance threshold of `_filter_similar_shapes_strict`:
`1.0 * max(0.1, min(2.0, 100 / weight))`, tightened to
`max(threshold * 0.7, 0.15)` when the current variance is `< 0.01`. -/
def distanceThreshold (cfg : Config) (existingDescriptors : List ShapeDesc) : ℚ :=
  let currentVariance := calculateShapeVariance existingDescriptors
  let baseThreshold : ℚ := 1
  let strictnessFactor := qmax (Rat.divInt 1 10) (qmin 2 (qdiv 100 cfg.shapeVarianceWeight))
  let t := qmul baseThreshold strictnessFactor
  if currentVariance < Rat.divInt 1 100 then qmax (qmul t (Rat.divInt 7 10)) (Rat.divInt 15 100)
  else t

/-- Strict similarity filter (`_filter_similar_shapes_strict`).  Every placed
apartment already carries `shapeDescriptors` (set in `_backtrack`), so the
source's fallback branch recomputing missing descriptors is unreachable here.
The source compares `sqrt d2 <= threshold` and sorts by `sqrt d2`; both sides
are nonnegative and `sqrt` is monotone, so we compare and sort by squares. -/
def filterSimilarShapesStrict (cfg : Config) (placements : List (List Pos))
    (placedApts : List Apt) : List (List Pos) :=
  if placements = [] ∨ placedApts = [] then placements
  else
    let existingDescriptors := placedApts.map (fun apt => apt.shapeDescriptors)
    let avgDescriptors := descriptorMeans existingDescriptors
    let distThreshold := distanceThreshold cfg existingDescriptors
    let similarPlacements := placements.filterMap (fun placement =>
      let d2 := descDistSq (calculateShapeDescriptors placement) avgDescriptors
      if d2 ≤ qsq distThreshold then some (d2, placement) else none)
    let sortedSimilar :=
      List.insertionSort (fun a b : ℚ × List Pos => a.1 ≤ b.1) similarPlacements
    sortedSimilar.map (fun x => x.2)

/-! ### Half-cell resolver (`_add_half_cells`) -/

/-- Expand a coarse cell list to its 2x2 fine sub-cells, in the source's
append order (`dy` outer, `dx` inner). -/
def expandFine (cells : List Pos) : List Pos :=
  cells.flatMap (fun c =>
    [(c.1 * 2, c.2 * 2), (c.1 * 2 + 1, c.2 * 2), (c.1 * 2, c.2 * 2 + 1), (c.1 * 2 + 1, c.2 * 2 + 1)])

/-- Fine-grid bounds test `0 <= x < n_cells_x*2 and 0 <= y < n_cells_y*2`. -/
def inFineBounds (cfg : Config) (p : Pos) : Prop :=
  0 ≤ p.1 ∧ p.1 < cfg.nCellsX * 2 ∧ 0 ≤ p.2 ∧ p.2 < cfg.nCellsY * 2

instance (cfg : Config) (p : Pos) : Decidable (inFineBounds cfg p) := by
  unfold inFineBounds; infer_instance

/-- The doubled-resolution grid: each coarse cell copied to its 4 sub-cells,
then the optional fine circulation mask stamped with `-1`. -/
def buildFineGridBase (cfg : Config) (grid : Grid) : Grid :=
  let z : Grid := List.replicate (cfg.nCellsY.toNat * 2) (List.replicate (cfg.nCellsX.toNat * 2) 0)
  let copied := (List.range cfg.nCellsY.toNat).foldl (fun fg y =>
    (List.range cfg.nCellsX.toNat).foldl (fun fg x =>
      let val := Grid.get grid (Int.ofNat y) (Int.ofNat x)
      (([(0, 0), (0, 1), (1, 0), (1, 1)] : List (ℕ × ℕ)).foldl (fun fg d =>
        let fy : ℕ := y * 2 + d.1
        let fx : ℕ := x * 2 + d.2
        Grid.setCell fg (fy : ℤ) (fx : ℤ) val) fg)) fg) z
  match cfg.fineCirculationCells with
  | none => copied
  | some fcs => fcs.foldl (fun fg f => Grid.setCell fg f.2 f.1 (-1)) copied

/-- All candidate free sub-cell pairs adjacent to an apartment's fine cells, in
the source's enumeration order: for each fine cell, for each direction, first
the two vertical then the two horizontal pairings of the free neighbour. -/
def candidatePairsFor (cfg : Config) (fineGrid : Grid) (fineCells : List Pos) :
    List (Pos × Pos) :=
  fineCells.flatMap (fun f =>
    dirs.flatMap (fun d =>
      let n1 : Pos := (f.1 + d.1, f.2 + d.2)
      if n1 ∈ fineCells then []
      else if ¬ inFineBounds cfg n1 then []
      else if Grid.get fineGrid n1.2 n1.1 ≠ 0 then []
      else
        (([1, -1] : List ℤ).filterMap (fun perpDir =>
          let n2 : Pos := (n1.1, n1.2 + perpDir)
          if inFineBounds cfg n2 ∧ Grid.get fineGrid n2.2 n2.1 = 0 then some (n1, n2) else none)) ++
        (([1, -1] : List ℤ).filterMap (fun perpDir =>
          let n2 : Pos := (n1.1 + perpDir, n1.2)
          if inFineBounds cfg n2 ∧ Grid.get fineGrid n2.2 n2.1 = 0 then some (n1, n2) else none))))

/-- Per-apartment loop of `_add_half_cells`, threading the fine grid: a
fractional apartment claims the first candidate pair (failure aborts the whole
resolution with `none`), a whole apartment is expanded 1:1. -/
def addHalfCellsGo (cfg : Config) :
    Grid → List (ℤ × Apt) → List Apt → Option (Grid × List Apt)
  | fineGrid, [], acc => some (fineGrid, acc)
  | fineGrid, (aptId, aptInfo) :: rest, acc =>
    let fineCells := expandFine aptInfo.cells
    if isHalfSize aptInfo.size then
      match candidatePairsFor cfg fineGrid fineCells with
      | [] => none
      | (n1, n2) :: _ =>
        let stamped := Grid.setCell (Grid.setCell fineGrid n1.2 n1.1 aptId) n2.2 n2.1 aptId
        let updated := { aptInfo with
          fineCells := some (fineCells ++ [n1, n2]), usesHalfCell := true }
        addHalfCellsGo cfg stamped rest (acc ++ [updated])
    else
      let updated := { aptInfo with fineCells := some fineCells, usesHalfCell := false }
      addHalfCellsGo cfg fineGrid rest (acc ++ [updated])

/-- Attach apartment ids `1..n` by list position (the Python dict keys). -/
def withIds (apts : List Apt) : List (ℤ × Apt) :=
  apts.enum.map (fun e => ((e.1 : ℤ) + 1, e.2))

/-- Half-cell resolution (`_add_half_cells`): `none` when the fine grid is
disabled or some fractional apartment finds no free pair. -/
def addHalfCells (cfg : Config) (grid : Grid) (apartments : List Apt) :
    Option (Grid × List Apt) :=
  if ¬ cfg.useFineGrid then none
  else addHalfCellsGo cfg (buildFineGridBase cfg grid) (withIds apartments) []

/-! ### Solution recorder (`_save_solution`) -/

/-- Recompute compactness and shape descriptors per apartment over its fine
cells when present, else its coarse cells (the update loop of
`_save_solution`). -/
def updatedWithMetrics (apts : List Apt) : List Apt :=
  apts.map (fun apt =>
    let cells := apt.fineCells.getD apt.cells
    { apt with compactness := some (calculateCompactness cells),
               shapeDescriptors := calculateShapeDescriptors cells })

/-- Build the Solution record of `_save_solution` (before deduplication):
`none` when half-cell resolution fails.  In the non-fine path the source stores
`deepcopy(apartments)` after the metric loop has mutated the same dicts, so
both paths store the metric-updated apartments. -/
def buildSolution (cfg : Config) (grid : Grid) (apartments : List Apt) : Option Solution :=
  let resolved : Option (Option Grid × List Apt) :=
    if cfg.useFineGrid then
      match addHalfCells cfg grid apartments with
      | none => none
      | some (fg, apts) => some (some fg, apts)
    else some (none, apartments)
  match resolved with
  | none => none
  | some (fineGrid, updatedApartments0) =>
    let updatedApartments := updatedWithMetrics updatedApartments0
    let compactnessScores := updatedApartments0.map
      (fun apt => calculateCompactness (apt.fineCells.getD apt.cells))
    let shapeDescriptors := updatedApartments0.map
      (fun apt => calculateShapeDescriptors (apt.fineCells.getD apt.cells))
    let shapeVariance := calculateShapeVariance shapeDescriptors
    let avgCompactness :=
      if compactnessScores.length = 0 then 0
      else qdiv (qsum compactnessScores) ((compactnessScores.length : ℕ) : ℚ)
    let score := qadd (qneg avgCompactness) (qmul shapeVariance cfg.shapeVarianceWeight)
    some { grid := grid, fineGrid := fineGrid, apartments := updatedApartments,
           circulationCells := cfg.circulationCells,
           metadata := { gridX := cfg.gridX, gridY := cfg.gridY,
                         nCellsX := cfg.nCellsX, nCellsY := cfg.nCellsY,
                         score := score, avgCompactness := avgCompactness,
                         shapeVariance := shapeVariance,
                         useFineGrid := cfg.useFineGrid } }

/-- Lexicographic code-point comparison of strings (Python `str` ordering),
kernel-computable (the builtin `String` order does not reduce). -/
def charListLe : List Char → List Char → Bool
  | [], _ => true
  | _ :: _, [] => false
  | a :: as, b :: bs =>
    if a.toNat < b.toNat then true
    else if b.toNat < a.toNat then false
    else charListLe as bs

/-- String comparison by code points, as a `Bool`. -/
def strLeB (a b : String) : Bool := charListLe a.data b.data

/-- The canonical (type-coded) signature grid of `_save_solution`: fine grid
when used, each apartment cell replaced by the 1-based rank of its type among
the sorted distinct type names, free and circulation unchanged.  (Cell values
that are no valid apartment id would raise a `KeyError` in the source; they
cannot occur in a built solution and are mapped to 0.) -/
def canonicalSignature (sol : Solution) : Grid :=
  let gridForSig :=
    if sol.metadata.useFineGrid ∧ sol.fineGrid.isSome then sol.fineGrid.getD sol.grid
    else sol.grid
  let uniqueTypes :=
    List.insertionSort (fun a b => strLeB a b = true) ((sol.apartments.map (fun a => a.type)).dedup)
  gridForSig.map (fun row => row.map (fun v =>
    if v = -1 then -1
    else if v = 0 then 0
    else
      match sol.apartments.get? (v - 1).toNat with
      | some apt => (List.indexOf apt.type uniqueTypes : ℕ) + 1
      | none => 0))

/-- Record a finalized branch (`_save_solution`): build the solution, drop it
if its canonical signature was already seen, else append both. -/
def saveSolution (cfg : Config) (grid : Grid) (apartments : List Apt)
    (st : SolverState) : SolverState :=
  match buildSolution cfg grid apartments with
  | none => st
  | some sol =>
    let sig := canonicalSignature sol
    if sig ∈ st.seenSignatures then st
    else { solutions := st.solutions ++ [sol], seenSignatures := st.seenSignatures ++ [sig] }

/-! ### Backtracker (`_backtrack`, `solve`) -/

/-- Stamp a placement into a copy of the grid (`new_grid[y, x] = apt_id`). -/
def stampPlacement (grid : Grid) (cells : List Pos) (aptId : ℤ) : Grid :=
  cells.foldl (fun g c => Grid.setCell g c.2 c.1 aptId) grid

/-- The recursive backtracker (`_backtrack`) with explicit fuel.  Each
recursive call moves to apartment index `aptIdx + 1`, so a fuel of
`remainingApts.length + 1 - aptIdx` (as supplied by `backtrack`) never runs
out; the fuel-0 branch is unreachable.  The per-candidate loop is the `foldl`
threading the solver state exactly as the Python `for` threads `self`. -/
def backtrackGo (cfg : Config) :
    Nat → Grid → List (String × ℚ) → Nat → List Apt → SolverState → SolverState
  | 0, _, _, _, _, st => st
  | fuel + 1, grid, remainingApts, aptIdx, placedApts, st =>
    if h : remainingApts.length ≤ aptIdx then
      saveSolution cfg grid placedApts st
    else if cfg.maxSolutions * 200 ≤ st.solutions.length then st
    else
      let spec := remainingApts.get ⟨aptIdx, by omega⟩
      let aptType := spec.1
      let size := spec.2
      let aptId : ℤ := (aptIdx : ℕ) + 1
      let placements0 := findAllPlacements cfg grid size
      let placementsWithCompactness :=
        placements0.map (fun placement => (calculateCompactness placement, placement))
      let placementsSorted :=
        (List.insertionSort (fun a b : ℚ × List Pos => b.1 ≤ a.1) placementsWithCompactness).map
          (fun x => x.2)
      let placements :=
        if placedApts ≠ [] then filterSimilarShapesStrict cfg placementsSorted placedApts
        else placementsSorted
      if placedApts ≠ [] ∧ placements = [] then st
      else
        let maxTries :=
          if isHalfSize size then cfg.maxPlacementTries * 3 / 2 else cfg.maxPlacementTries
        (placements.take maxTries).foldl (fun st placementCells =>
          let newGrid := stampPlacement grid placementCells aptId
          if checkConstraints cfg newGrid aptId placementCells aptType then
            let facadeCount := countFacadeCells cfg placementCells
            let halfSide :=
              if isHalfSize size then selectHalfSideAnyBoundary placementCells else none
            if isHalfSize size ∧ halfSide = none then st
            else
              let shapeDesc := calculateShapeDescriptors placementCells
              let newApt : Apt :=
                { type := aptType, size := size, cells := placementCells,
                  facadeCount := facadeCount, usesHalfCell := isHalfSize size,
                  halfSide := halfSide, shapeDescriptors := shapeDesc }
              backtrackGo cfg fuel newGrid remainingApts (aptIdx + 1)
                (placedApts ++ [newApt]) st
          else st) st

/-- `_backtrack` at its intended fuel. -/
def backtrack (cfg : Config) (grid : Grid) (remainingApts : List (String × ℚ))
    (aptIdx : Nat) (placedApts : List Apt) (st : SolverState) : SolverState :=
  backtrackGo cfg (remainingApts.length + 1 - aptIdx) grid remainingApts aptIdx placedApts st

/-- The initial grid of `solve`: zeros with circulation stamped `-1`. -/
def initialGrid (cfg : Config) : Grid :=
  let z : Grid := List.replicate cfg.nCellsY.toNat (List.replicate cfg.nCellsX.toNat 0)
  cfg.circulationCells.foldl (fun g c => Grid.setCell g c.2 c.1 (-1)) z

/-- The apartment list sorted descending by size, stably (largest first, ties
in input order), as fixed once at the start of `solve`. -/
def sortedAptList (cfg : Config) : List (String × ℚ) :=
  List.insertionSort (fun a b : String × ℚ => b.2 ≤ a.2) cfg.apartmentList

/-- The raw search: run the backtracker from the initial grid on a fresh
state.  Returns the full recorded state (`self.solutions`, `self._seen_signatures`). -/
def runSolver (cfg : Config) : SolverState :=
  backtrack cfg (initialGrid cfg) (sortedAptList cfg) 0 [] ⟨[], []⟩

/-- Recorded solutions sorted ascending by score (stable), as in `solve`. -/
def sortedSolutions (cfg : Config) : List Solution :=
  List.insertionSort (fun s t : Solution => s.metadata.score ≤ t.metadata.score)
    (runSolver cfg).solutions

/-- The variance ceiling of the post-filter: average `shape_variance` of the
best `max(3, count / 5)` solutions times the configured multiplier. -/
def varianceCeiling (cfg : Config) (sorted : List Solution) : ℚ :=
  let nBest := max 3 (sorted.length / 5)
  let bestVariances := (sorted.take nBest).map (fun s => s.metadata.shapeVariance)
  let avgBestVariance := qdiv (qsum bestVariances) ((bestVariances.length : ℕ) : ℚ)
  qmul avgBestVariance cfg.varianceFilterThreshold

/-- The post-filtered solution list of `solve` (before truncation): applied
only when more solutions were recorded than requested, keeping at least the 3
best raw solutions. -/
def filteredSolutions (cfg : Config) : List Solution :=
  let sorted := sortedSolutions cfg
  if cfg.maxSolutions < sorted.length then
    let ceiling := varianceCeiling cfg sorted
    let filtered := sorted.filter (fun s => decide (s.metadata.shapeVariance ≤ ceiling))
    if filtered.length < 3 then sorted.take (min 3 sorted.length) else filtered
  else sorted

/-- The full `solve`: search, rank, post-filter, truncate. -/
def solve (cfg : Config) : List Solution := (filteredSolutions cfg).take cfg.maxSolutions

/-- Embeds `ApartmentSolver.__init__` as a fallible constructor, to state
claims about construction-time validation.  The source constructor performs no
value-level validation: its only `raise` is a `TypeError` for an
`apartments_to_place` argument that is neither dict nor list, a case a typed
embedding cannot express.  Every value configuration is accepted. -/
def initSolver (gridX gridY : ℚ) (nCellsX nCellsY : ℤ) (circulationCells : List Pos)
    (apartmentsToPlace : List (String × ℚ)) (maxSolutions : ℕ)
    (minFacadeCells : Option (List (String × ℤ))) (useFineGrid : Bool)
    (fineCirculationCells : Option (List Pos)) (maxEnfiladeCellsPerApartment : Option ℕ)
    (shapeVarianceWeight : ℚ) (varianceFilterThreshold : ℚ) (maxPlacementTries : ℕ) :
    Except String Config :=
  Except.ok { gridX := gridX, gridY := gridY, nCellsX := nCellsX, nCellsY := nCellsY,
              circulationCells := circulationCells, apartmentList := apartmentsToPlace,
              maxSolutions := maxSolutions, minFacadeCells := minFacadeCells,
              useFineGrid := useFineGrid, fineCirculationCells := fineCirculationCells,
              maxEnfiladeCellsPerApartment := maxEnfiladeCellsPerApartment,
              shapeVarianceWeight := shapeVarianceWeight,
              varianceFilterThreshold := varianceFilterThreshold,
              maxPlacementTries := maxPlacementTries }

/-! ### Properties the claims talk about -/

/-- 4-adjacency of two cells. -/
def AdjPos (a b : Pos) : Prop :=
  (a.1 = b.1 ∧ (a.2 = b.2 + 1 ∨ b.2 = a.2 + 1)) ∨
  (a.2 = b.2 ∧ (a.1 = b.1 + 1 ∨ b.1 = a.1 + 1))

instance (a b : Pos) : Decidable (AdjPos a b) := by
  unfold AdjPos; infer_instance

/-- Adjacency restricted to a cell set. -/
def AdjIn (s : List Pos) (p q : Pos) : Prop := p ∈ s ∧ q ∈ s ∧ AdjPos p q

/-- 4-connectedness of a cell set: every two members joined by a path of
4-adjacent members. -/
def ConnectedCells (s : List Pos) : Prop :=
  ∀ a ∈ s, ∀ b ∈ s, Relation.ReflTransGen (AdjIn s) a b

/-- A list grown cell by cell, each new cell 4-adjacent to an earlier one
(the shape of a flood-fill output). -/
inductive GrowsConn : List Pos → Prop
  | nil : GrowsConn []
  | single (c : Pos) : GrowsConn [c]
  | snoc (l : List Pos) (c : Pos) : GrowsConn l → (∃ d ∈ l, AdjPos d c) → GrowsConn (l ++ [c])

/-- A cell a flood fill may enter: in bounds, free, not partially blocked. -/
def GoodCell (cfg : Config) (grid : Grid) (c : Pos) : Prop :=
  inGridBounds cfg c ∧ Grid.get grid c.2 c.1 = 0 ∧ c ∉ partiallyBlockedCells cfg

/-- Shape well-formedness of a grid for a configuration. -/
def GridWF (cfg : Config) (g : Grid) : Prop :=
  g.length = cfg.nCellsY.toNat ∧ ∀ row ∈ g, row.length = cfg.nCellsX.toNat

/-- Branch invariant, apartment side: the apartment at position `k` (id
`k + 1`) owns exactly the grid cells labelled `k + 1`, its coarse cells are a
nonempty, duplicate-free, in-bounds, 4-connected set of `floor(size)` cells. -/
def AptWF (cfg : Config) (grid : Grid) (k : ℕ) (apt : Apt) : Prop :=
  apt.cells ≠ [] ∧ apt.cells.Nodup ∧ ConnectedCells apt.cells ∧
  (∀ c ∈ apt.cells, inGridBounds cfg c) ∧
  ((apt.cells.length : ℤ) = qfloorZ apt.size) ∧
  (∀ y x : ℤ, 0 ≤ y → y < cfg.nCellsY → 0 ≤ x → x < cfg.nCellsX →
    (Grid.get grid y x = (k : ℤ) + 1 ↔ (x, y) ∈ apt.cells))

/-- Branch invariant of the backtracker: every in-bounds cell is labelled
circulation, free, or one of the placed ids, and every placed apartment is
`AptWF`. -/
def BranchInv (cfg : Config) (grid : Grid) (placed : List Apt) : Prop :=
  (∀ y x : ℤ, 0 ≤ y → y < cfg.nCellsY → 0 ≤ x → x < cfg.nCellsX →
     Grid.get grid y x = -1 ∨ Grid.get grid y x = 0 ∨
     ∃ k, k < placed.length ∧ Grid.get grid y x = (k : ℤ) + 1) ∧
  (∀ k apt, placed.get? k = some apt → AptWF cfg grid k apt)

/-- The partition-and-connectivity property of a recorded Solution that claim
C1 asserts: every in-bounds coarse cell carries `-1`, `0` or the id of one of
the recorded apartments; the cells labelled with id `k + 1` are exactly
apartment `k + 1`'s coarse cells; every apartment's coarse cell set is
4-connected. -/
def SolutionPartitionOK (sol : Solution) : Prop :=
  (∀ y x : ℤ, 0 ≤ y → y < sol.metadata.nCellsY → 0 ≤ x → x < sol.metadata.nCellsX →
     Grid.get sol.grid y x = -1 ∨ Grid.get sol.grid y x = 0 ∨
     ∃ k, k < sol.apartments.length ∧ Grid.get sol.grid y x = (k : ℤ) + 1) ∧
  (∀ k apt, sol.apartments.get? k = some apt →
     ConnectedCells apt.cells ∧
     (∀ y x : ℤ, 0 ≤ y → y < sol.metadata.nCellsY → 0 ≤ x → x < sol.metadata.nCellsX →
        (Grid.get sol.grid y x = (k : ℤ) + 1 ↔ (x, y) ∈ apt.cells)))

/-- The two extra fine sub-cells of a fractional apartment (the entries
appended after the 2x2 expansion of its coarse cells). -/
def extraPair (apt : Apt) : Pos × Pos :=
  let fineCells := apt.fineCells.getD []
  let n := (expandFine apt.cells).length
  (fineCells.getD n (0, 0), fineCells.getD (n + 1) (0, 0))

/-- Claim C5's property of a fractional apartment, as stated: the fine-cell
list is the expansion plus exactly 2 extra sub-cells, which are adjacent to
each other and (both) adjacent to the apartment's existing fine cells. -/
def BothExtrasAdjacent (apt : Apt) : Prop :=
  apt.fineCells.getD [] = expandFine apt.cells ++ [(extraPair apt).1, (extraPair apt).2] ∧
  AdjPos (extraPair apt).1 (extraPair apt).2 ∧
  (∃ f ∈ expandFine apt.cells, AdjPos f (extraPair apt).1) ∧
  (∃ f ∈ expandFine apt.cells, AdjPos f (extraPair apt).2)

instance (apt : Apt) : Decidable (BothExtrasAdjacent apt) := by
  unfold BothExtrasAdjacent; infer_instance

/-! ### Concrete configurations used as witnesses and counterexamples -/

/-- A 2x2 grid with one circulation cell and a single fractional apartment
`("1.5p", 1.5)`, fine grid enabled: the search records exactly two solutions. -/
def witnessConfig : Config :=
  { gridX := 4, gridY := 4, nCellsX := 2, nCellsY := 2,
    circulationCells := [(0, 0)], apartmentList := [("1.5p", Rat.divInt 3 2)],
    maxSolutions := 10, minFacadeCells := none, useFineGrid := true,
    fineCirculationCells := none, maxEnfiladeCellsPerApartment := none,
    shapeVarianceWeight := 100, varianceFilterThreshold := Rat.divInt 3 2,
    maxPlacementTries := 30 }

/-- An at-cap configuration: `max_solutions = 0` makes the global budget
`0 * 200 = 0`, yet the empty apartment list sends the very first `_backtrack`
call into `_save_solution` before the budget check, recording one solution. -/
def capConfig : Config :=
  { gridX := 4, gridY := 4, nCellsX := 1, nCellsY := 1,
    circulationCells := [], apartmentList := [],
    maxSolutions := 0, minFacadeCells := none, useFineGrid := false,
    fineCirculationCells := none, maxEnfiladeCellsPerApartment := none,
    shapeVarianceWeight := 100, varianceFilterThreshold := Rat.divInt 3 2,
    maxPlacementTries := 30 }

/-- A placed-apartment record as `_backtrack` would create it for the
single-cell placement `[(1, 0)]` of spec `("1.5p", 1.5)` (used in witnesses). -/
def witnessApt : Apt :=
  { type := "1.5p", size := Rat.divInt 3 2, cells := [(1, 0)], facadeCount := 1,
    usesHalfCell := true, halfSide := some "top",
    shapeDescriptors := calculateShapeDescriptors [(1, 0)] }

/-- A degenerate configuration (0x0 grid, one apartment of size 0) that the
source constructor accepts without complaint. -/
def degenerateConfig : Config :=
  { gridX := 1, gridY := 1, nCellsX := 0, nCellsY := 0,
    circulationCells := [], apartmentList := [("1p", 0)],
    maxSolutions := 10, minFacadeCells := none, useFineGrid := true,
    fineCirculationCells := none, maxEnfiladeCellsPerApartment := none,
    shapeVarianceWeight := 100, varianceFilterThreshold := Rat.divInt 3 2,
    maxPlacementTries := 30 }

/-- What `_add_half_cells` actually guarantees for a fractional apartment of a
recorded fine-grid solution: the fine-cell list is the 2x2 expansion of the
coarse cells plus exactly 2 extra sub-cells (`4 * floor(size) + 2` entries in
all), the extra pair is adjacent, and the FIRST extra sub-cell is adjacent to
the apartment's existing fine cells (the second may touch the apartment only
through the first). -/
def HalfCellResolved (apt : Apt) : Prop :=
  ∃ e1 e2, apt.fineCells = some (expandFine apt.cells ++ [e1, e2]) ∧
    ((apt.fineCells.getD []).length : ℤ) = 4 * qfloorZ apt.size + 2 ∧
    AdjPos e1 e2 ∧ ∃ f ∈ expandFine apt.cells, AdjPos f e1

/-- A throwaway default `Solution` (only used as the `headD` fallback of
concrete witness computations, never actually selected). -/
def defaultSolution : Solution :=
  { grid := [], fineGrid := none, apartments := [], circulationCells := [],
    metadata := { gridX := 0, gridY := 0, nCellsX := 0, nCellsY := 0,
                  score := 0, avgCompactness := 0, shapeVariance := 0, useFineGrid := false } }

/-- The first solution recorded on `witnessConfig`. -/
def wSol : Solution := (runSolver witnessConfig).solutions.headD defaultSolution

/-- The (single) apartment of `wSol` — fractional, fine grid in use. -/
def wApt : Apt := wSol.apartments.headD witnessApt

/-- The single solution recorded on `capConfig` (the empty placement). -/
def capSol : Solution := (runSolver capConfig).solutions.headD defaultSolution

/-! ## Theorems

First the transparent-arithmetic correctness lemmas, then general-purpose
list/grid lemmas, then the claim theorems with their witnesses. -/

theorem qadd_eq (a b : ℚ) : qadd a b = a + b := by
  conv_rhs => rw [← Rat.num_divInt_den a, ← Rat.num_divInt_den b]
  rw [Rat.divInt_add_divInt _ _ (by exact_mod_cast a.den_nz) (by exact_mod_cast b.den_nz)]
  rfl

theorem qneg_eq (a : ℚ) : qneg a = -a := by
  conv_rhs => rw [← Rat.num_divInt_den a]
  rw [Rat.neg_divInt]
  rfl

theorem qsub_eq (a b : ℚ) : qsub a b = a - b := by
  rw [qsub, qneg_eq, qadd_eq, sub_eq_add_neg]

theorem qmul_eq (a b : ℚ) : qmul a b = a * b := by
  conv_rhs => rw [← Rat.num_divInt_den a, ← Rat.num_divInt_den b]
  rw [Rat.divInt_mul_divInt _ _ (by exact_mod_cast a.den_nz) (by exact_mod_cast b.den_nz)]
  rfl

theorem qdiv_eq (a b : ℚ) : qdiv a b = a / b := by
  rcases eq_or_ne b 0 with rfl | hb
  · simp [qdiv, Rat.divInt_eq_div]
  · have hbn : b.num ≠ 0 := Rat.num_ne_zero.mpr hb
    have hinv : b⁻¹ = Rat.divInt (b.den : ℤ) b.num := Rat.inv_def b
    rw [div_eq_mul_inv, hinv]
    conv_rhs => rw [← Rat.num_divInt_den a]
    rw [Rat.divInt_mul_divInt _ _ (by exact_mod_cast a.den_nz) hbn]
    rfl

theorem qsq_eq (a : ℚ) : qsq a = a ^ 2 := by rw [qsq, qmul_eq, sq]

theorem qmax_eq (a b : ℚ) : qmax a b = max a b := by rw [qmax, max_def]

theorem qmin_eq (a b : ℚ) : qmin a b = min a b := by rw [qmin, min_def]

theorem qabs_eq (a : ℚ) : qabs a = |a| := by
  rw [qabs, qneg_eq]
  rcases lt_or_le a 0 with h | h
  · rw [if_pos h, abs_of_neg h]
  · rw [if_neg (not_lt.mpr h), abs_of_nonneg h]

theorem qsum_eq (l : List ℚ) : qsum l = l.sum := by
  have h : ∀ (a : ℚ), l.foldl qadd a = a + l.sum := by
    induction l with
    | nil => simp [List.foldl]
    | cons x xs ih => intro a; simp [List.foldl, qadd_eq, ih, add_assoc]
  simpa using h 0

theorem qfloorZ_eq (q : ℚ) : qfloorZ q = ⌊q⌋ := by
  rw [qfloorZ, Rat.floor_def, Int.fdiv_eq_ediv _ (by exact_mod_cast Nat.zero_le q.den)]

/-! ### General-purpose lemmas: sorting, adjacency, connectivity, grids -/

theorem mem_insertionSort {α : Type} {r : α → α → Prop} [DecidableRel r] {l : List α} {a : α} :
    a ∈ List.insertionSort r l ↔ a ∈ l :=
  (List.perm_insertionSort r l).mem_iff

theorem adjPos_symm {a b : Pos} (h : AdjPos a b) : AdjPos b a := by
  unfold AdjPos at h ⊢
  rcases a with ⟨ax, ay⟩; rcases b with ⟨bx, by'⟩
  simp only at h ⊢
  omega

theorem adjPos_neighbor (c : Pos) {d : Pos} (hd : d ∈ dirs) :
    AdjPos c (c.1 + d.1, c.2 + d.2) := by
  simp only [dirs, List.mem_cons, List.not_mem_nil, or_false] at hd
  rcases hd with h | h | h | h <;> subst h <;> simp [AdjPos]

theorem growsConn_connected {l : List Pos} (h : GrowsConn l) : ConnectedCells l := by
  induction h with
  | nil => intro a ha; exact absurd ha (List.not_mem_nil a)
  | single c =>
    intro a ha b hb
    simp only [List.mem_singleton] at ha hb
    subst ha; subst hb; exact Relation.ReflTransGen.refl
  | snoc l c _ hadj ih =>
    intro a ha b hb
    obtain ⟨d, hd, hdc⟩ := hadj
    have hsub : ∀ p q : Pos, Relation.ReflTransGen (AdjIn l) p q →
        Relation.ReflTransGen (AdjIn (l ++ [c])) p q := by
      intro p q
      exact Relation.ReflTransGen.mono
        (fun p q hpq => ⟨List.mem_append_left _ hpq.1, List.mem_append_left _ hpq.2.1, hpq.2.2⟩)
    have hdc' : Relation.ReflTransGen (AdjIn (l ++ [c])) d c :=
      Relation.ReflTransGen.single
        ⟨List.mem_append_left _ hd, List.mem_append_right _ (List.mem_singleton_self c), hdc⟩
    have reach : ∀ a ∈ l ++ [c], Relation.ReflTransGen (AdjIn (l ++ [c])) a c := by
      intro a ha
      rcases List.mem_append.mp ha with ha' | ha'
      · exact (hsub _ _ (ih a ha' d hd)).trans hdc'
      · simp only [List.mem_singleton] at ha'; subst ha'; exact Relation.ReflTransGen.refl
    have hsymm : Symmetric (AdjIn (l ++ [c])) :=
      fun p q hpq => ⟨hpq.2.1, hpq.1, adjPos_symm hpq.2.2⟩
    have hRsymm := Relation.ReflTransGen.symmetric hsymm
    rcases List.mem_append.mp ha with ha' | ha' <;> rcases List.mem_append.mp hb with hb' | hb'
    · exact hsub _ _ (ih a ha' b hb')
    · simp only [List.mem_singleton] at hb'; subst hb'; exact reach a ha
    · simp only [List.mem_singleton] at ha'; subst ha'; exact hRsymm (reach b hb)
    · simp only [List.mem_singleton] at ha' hb'; subst ha'; subst hb'
      exact Relation.ReflTransGen.refl

theorem grid_get_setCell (g : Grid) (y x v y' x' : ℤ) :
    Grid.get (Grid.setCell g y x v) y' x' =
      if y.toNat = y'.toNat ∧ x.toNat = x'.toNat ∧ y.toNat < g.length ∧
         x.toNat < (g.getD y.toNat []).length
      then v else Grid.get g y' x' := by
  simp only [Grid.get, Grid.setCell, List.getD_eq_getElem?_getD]
  rw [List.getElem?_set]
  by_cases hy : y.toNat = y'.toNat
  case neg => rw [if_neg hy, if_neg (by tauto)]
  case pos =>
    rw [if_pos hy]
    by_cases hl : y.toNat < g.length
    case neg =>
      rw [if_neg hl, Option.getD_none, if_neg (by tauto), ← hy,
        List.getElem?_eq_none (by omega : g.length ≤ y.toNat)]
      rfl
    case pos =>
      rw [if_pos hl, Option.getD_some, List.getElem?_set, ← hy]
      by_cases hx : x.toNat = x'.toNat
      case neg => rw [if_neg hx, if_neg (by tauto)]
      case pos =>
        rw [if_pos hx, ← hx]
        by_cases hxl : x.toNat < (g[y.toNat]?.getD []).length
        case pos => rw [if_pos hxl, Option.getD_some, if_pos ⟨rfl, rfl, hl, hxl⟩]
        case neg =>
          rw [if_neg hxl, Option.getD_none, if_neg (by tauto),
            List.getElem?_eq_none (by omega : (g[y.toNat]?.getD []).length ≤ x.toNat)]
          rfl

theorem grid_get_setCell_cases (g : Grid) (y x v y' x' : ℤ) :
    Grid.get (Grid.setCell g y x v) y' x' = v ∨
    Grid.get (Grid.setCell g y x v) y' x' = Grid.get g y' x' := by
  rw [grid_get_setCell]
  split
  · exact Or.inl rfl
  · exact Or.inr rfl

theorem grid_get_setCell_self (g : Grid) (y x v : ℤ)
    (hy : y.toNat < g.length) (hx : x.toNat < (g.getD y.toNat []).length) :
    Grid.get (Grid.setCell g y x v) y x = v := by
  rw [grid_get_setCell, if_pos ⟨rfl, rfl, hy, hx⟩]

theorem grid_get_setCell_ne (g : Grid) (y x v y' x' : ℤ)
    (h : y.toNat ≠ y'.toNat ∨ x.toNat ≠ x'.toNat) :
    Grid.get (Grid.setCell g y x v) y' x' = Grid.get g y' x' := by
  rw [grid_get_setCell, if_neg (by tauto)]

theorem gridWF_setCell {cfg : Config} {g : Grid} (hwf : GridWF cfg g) (y x v : ℤ) :
    GridWF cfg (Grid.setCell g y x v) := by
  obtain ⟨hlen, hrow⟩ := hwf
  by_cases hl : y.toNat < g.length
  · refine ⟨by simpa [Grid.setCell] using hlen, ?_⟩
    intro row hr
    rcases List.mem_or_eq_of_mem_set hr with hr' | hr'
    · exact hrow row hr'
    · subst hr'
      rw [List.length_set]
      exact hrow _ (by rw [List.getD_eq_getElem g [] hl]; exact List.getElem_mem hl)
  · rw [Grid.setCell, List.set_eq_of_length_le (by omega)]
    exact ⟨hlen, hrow⟩

/-! ### Flood-fill invariants (claims C1, C2) -/

theorem floodFillLoop_inv (cfg : Config) (grid : Grid) (target : ℤ) (start : Pos) :
    ∀ (fuel : ℕ) (visited cells queue : List Pos),
      (∀ p : Pos, p ∈ visited ↔ p ∈ cells) →
      cells.Nodup →
      GrowsConn cells →
      (∀ c ∈ cells, GoodCell cfg grid c) →
      (∀ q ∈ queue, q ∈ visited ∨ (cells = [] ∧ q = start) ∨ ∃ d ∈ cells, AdjPos d q) →
      (floodFillLoop cfg grid target fuel visited cells queue).Nodup ∧
      GrowsConn (floodFillLoop cfg grid target fuel visited cells queue) ∧
      ∀ c ∈ floodFillLoop cfg grid target fuel visited cells queue, GoodCell cfg grid c := by
  intro fuel
  induction fuel with
  | zero => intro visited cells queue _ h2 h3 h4 _; exact ⟨h2, h3, h4⟩
  | succ fuel ih =>
    intro visited cells queue h1 h2 h3 h4 h5
    by_cases hlen : (cells.length : ℤ) < target
    case neg =>
      simp only [floodFillLoop, if_neg hlen]
      exact ⟨h2, h3, h4⟩
    case pos =>
      cases queue with
      | nil =>
        simp only [floodFillLoop, if_pos hlen]
        exact ⟨h2, h3, h4⟩
      | cons p rest =>
        simp only [floodFillLoop, if_pos hlen]
        by_cases hv : p ∈ visited
        case pos =>
          rw [if_pos hv]
          exact ih visited cells rest h1 h2 h3 h4 (fun q hq => h5 q (List.mem_cons_of_mem p hq))
        case neg =>
          rw [if_neg hv]
          by_cases hb : inGridBounds cfg p
          case neg =>
            rw [if_pos (by simpa using hb)]
            exact ih visited cells rest h1 h2 h3 h4
              (fun q hq => h5 q (List.mem_cons_of_mem p hq))
          case pos =>
            rw [if_neg (by simpa using hb)]
            by_cases hg : Grid.get grid p.2 p.1 ≠ 0
            case pos =>
              rw [if_pos hg]
              exact ih visited cells rest h1 h2 h3 h4
                (fun q hq => h5 q (List.mem_cons_of_mem p hq))
            case neg =>
              rw [if_neg hg]
              by_cases hpb : p ∈ partiallyBlockedCells cfg
              case pos =>
                rw [if_pos hpb]
                exact ih visited cells rest h1 h2 h3 h4
                  (fun q hq => h5 q (List.mem_cons_of_mem p hq))
              case neg =>
                rw [if_neg hpb]
                have hpc : p ∉ cells := fun hc => hv ((h1 p).mpr hc)
                have hgood : GoodCell cfg grid p := ⟨hb, not_not.mp hg, hpb⟩
                have hpq : p ∈ p :: rest := List.mem_cons_self p rest
                -- the new accepted cell is the start or adjacent to an earlier cell
                have hpok := h5 p hpq
                apply ih
                · intro q
                  simp only [List.mem_cons, List.mem_append, List.mem_singleton, h1 q]
                  tauto
                · rw [List.nodup_append]
                  exact ⟨h2, List.nodup_singleton p,
                    fun a ha hb' => by
                      rw [List.mem_singleton] at hb'; subst hb'; exact hpc ha⟩
                · rcases hpok with hpok | hpok | hpok
                  · exact absurd hpok hv
                  · rw [hpok.1, List.nil_append]
                    exact GrowsConn.single p
                  · exact GrowsConn.snoc cells p h3 hpok
                · intro c hc
                  rcases List.mem_append.mp hc with hc | hc
                  · exact h4 c hc
                  · rw [List.mem_singleton] at hc; subst hc; exact hgood
                · intro q hq
                  rcases List.mem_append.mp hq with hq | hq
                  · rcases h5 q (List.mem_cons_of_mem p hq) with h | h | h
                    · exact Or.inl (List.mem_cons_of_mem p h)
                    · -- cells was empty, so the popped p must be the start, and q = start = p
                      rcases hpok with hpok' | hpok' | hpok'
                      · exact absurd hpok' hv
                      · exact Or.inl (by rw [List.mem_cons]; left; rw [h.2, ← hpok'.2])
                      · rw [h.1] at hpok'
                        obtain ⟨d, hd, _⟩ := hpok'
                        exact absurd hd (List.not_mem_nil _)
                    · obtain ⟨d, hd, hadj⟩ := h
                      exact Or.inr (Or.inr ⟨d, List.mem_append_left _ hd, hadj⟩)
                  · rw [List.mem_filter] at hq
                    obtain ⟨hqmem, hqnv⟩ := hq
                    rw [List.mem_map] at hqmem
                    obtain ⟨d, hd, hdq⟩ := hqmem
                    refine Or.inr (Or.inr ⟨p, List.mem_append_right _ (List.mem_singleton_self p), ?_⟩)
                    rw [← hdq]
                    exact adjPos_neighbor p hd

theorem floodFill_some_spec {cfg : Config} {grid : Grid} {start : Pos} {target : ℤ}
    {cells : List Pos} (h : floodFill cfg grid start target = some cells) :
    (cells.length : ℤ) = target ∧ cells.Nodup ∧ GrowsConn cells ∧
    ∀ c ∈ cells, GoodCell cfg grid c := by
  unfold floodFill at h
  set res := floodFillLoop cfg grid target (4 * target.toNat + 2) [] [] [start] with hres
  by_cases hl : (res.length : ℤ) = target
  case neg => rw [if_neg hl] at h; exact absurd h (by simp)
  case pos =>
    rw [if_pos hl] at h
    obtain rfl : res = cells := by simpa using h
    refine ⟨hl, ?_⟩
    exact floodFillLoop_inv cfg grid target start _ [] [] [start]
      (by simp) List.nodup_nil GrowsConn.nil (by simp)
      (fun q hq => Or.inr (Or.inl ⟨rfl, by simpa using hq⟩))

theorem findAllPlacements_spec (cfg : Config) (grid : Grid) (size : ℚ) :
    (∀ p ∈ findAllPlacements cfg grid size,
       (∃ start, floodFill cfg grid start (qfloorZ size) = some p) ∧ p ≠ []) ∧
    (findAllPlacements cfg grid size).Pairwise (fun a b => sameCellSet a b = false) := by
  unfold findAllPlacements
  generalize (List.insertionSort (fun a b => startSortKey a ≤ startSortKey b)
    (candidateStarts cfg grid)) = starts
  suffices h : ∀ (acc : List (List Pos)),
      ((∀ p ∈ acc, (∃ start, floodFill cfg grid start (qfloorZ size) = some p) ∧ p ≠ []) ∧
        acc.Pairwise (fun a b => sameCellSet a b = false)) →
      ((∀ p ∈ starts.foldl (fun placements s =>
            match floodFill cfg grid s.1 (qfloorZ size) with
            | none => placements
            | some placement =>
              if placement ≠ [] ∧ (placement.length : ℤ) = qfloorZ size then
                if placements.any (fun p => sameCellSet p placement) then placements
                else placements ++ [placement]
              else placements) acc,
          (∃ start, floodFill cfg grid start (qfloorZ size) = some p) ∧ p ≠ []) ∧
        (starts.foldl _ acc).Pairwise (fun a b => sameCellSet a b = false)) by
    exact h [] ⟨by simp, List.Pairwise.nil⟩
  induction starts with
  | nil => intro acc hacc; exact hacc
  | cons s ss ih =>
    intro acc hacc
    refine ih _ ?_
    simp only [List.foldl_cons]
    rcases hff : floodFill cfg grid s.1 (qfloorZ size) with _ | placement <;>
      simp only [hff]
    · exact hacc
    · by_cases hok : placement ≠ [] ∧ ((placement.length : ℤ) = qfloorZ size)
      case neg => rw [if_neg hok]; exact hacc
      case pos =>
        rw [if_pos hok]
        by_cases hdup : acc.any (fun p => sameCellSet p placement)
        case pos => rw [if_pos hdup]; exact hacc
        case neg =>
          rw [if_neg hdup]
          constructor
          · intro p hp
            rcases List.mem_append.mp hp with hp | hp
            · exact hacc.1 p hp
            · rw [List.mem_singleton] at hp; subst hp
              exact ⟨⟨s.1, hff⟩, hok.1⟩
          · rw [List.pairwise_append]
            refine ⟨hacc.2, List.pairwise_singleton _ _, ?_⟩
            intro a ha b hb
            rw [List.mem_singleton] at hb
            have hfalse : (acc.any fun q => sameCellSet q placement) = false :=
              Bool.eq_false_iff.mpr hdup
            rw [hb]
            exact Bool.eq_false_iff.mpr (List.any_eq_false.mp hfalse a ha)

theorem sameCellSet_iff (a b : List Pos) :
    sameCellSet a b = true ↔ ∀ c : Pos, c ∈ a ↔ c ∈ b := by
  unfold sameCellSet
  rw [decide_eq_true_iff]
  constructor
  · rintro ⟨h1, h2⟩ c; exact ⟨fun h => h1 c h, fun h => h2 c h⟩
  · intro h; exact ⟨fun c hc => (h c).mp hc, fun c hc => (h c).mpr hc⟩

/-- C2: every region returned by the region finder has exactly `floor(size)`
cells, is duplicate-free and 4-connected, contains only in-bounds cells that
are free (label 0) and not partially blocked, and arises as a flood fill from
some start that collected exactly `floor(size)` cells (a start that cannot
contributes no region); no two returned regions are equal as sets. -/
theorem regionFinder_spec (cfg : Config) (grid : Grid) (size : ℚ) :
    (∀ p ∈ findAllPlacements cfg grid size,
      (p.length : ℤ) = ⌊size⌋ ∧ p.Nodup ∧ ConnectedCells p ∧
      (∀ c ∈ p, inGridBounds cfg c ∧ Grid.get grid c.2 c.1 = 0 ∧
        c ∉ partiallyBlockedCells cfg) ∧
      ∃ start, floodFill cfg grid start ⌊size⌋ = some p) ∧
    (findAllPlacements cfg grid size).Pairwise (fun a b => ¬ ∀ c : Pos, c ∈ a ↔ c ∈ b) := by
  obtain ⟨hmem, hpw⟩ := findAllPlacements_spec cfg grid size
  rw [← qfloorZ_eq]
  constructor
  · intro p hp
    obtain ⟨⟨start, hff⟩, _⟩ := hmem p hp
    obtain ⟨hlen, hnd, hgc, hgood⟩ := floodFill_some_spec hff
    exact ⟨hlen, hnd, growsConn_connected hgc, fun c hc => hgood c hc, ⟨start, hff⟩⟩
  · refine hpw.imp (fun h hiff => ?_)
    rw [← sameCellSet_iff] at hiff
    rw [hiff] at h
    exact absurd h (by simp)

/-- Witness for C2 at a concrete run: on the 2x2 grid of `witnessConfig` the
single-cell region `[(1, 0)]` is returned for size 1.5 and the theorem applies
to it. -/
theorem regionFinder_spec_witness :
    ConnectedCells [((1 : ℤ), (0 : ℤ))] ∧
    (([((1 : ℤ), (0 : ℤ))] : List Pos).length : ℤ) = ⌊Rat.divInt 3 2⌋ :=
  have h := (regionFinder_spec witnessConfig (initialGrid witnessConfig) (Rat.divInt 3 2)).1
    [((1 : ℤ), (0 : ℤ))] (by decide)
  ⟨h.2.2.1, h.1⟩

/-! ### Claim C7: facade requirement -/

theorem divInt_eq_div' (a b : ℤ) : Rat.divInt a b = (a : ℚ) / (b : ℚ) := Rat.divInt_eq_div a b

/-- C7: with no per-type override, the facade threshold of a type is
`max(0, round(roomCount - 1.5))` where `roomCount` is the numeric prefix of
the type name (here `round` is Python's round-half-to-even, embedded as
`pyRound`, and e.g. `"3.5p"` parses to `3.5`); and, whenever the circulation
and enfilade checks pass, the constraint checker accepts a candidate region
exactly when its count of outer-boundary cells reaches that threshold. -/
theorem facadeThreshold_spec :
    (∀ (cfg : Config) (aptType : String), cfg.minFacadeCells = none →
      facadeRequirements cfg aptType = max 0 (pyRound (parseRoomCount aptType - 3/2))) ∧
    parseRoomCount "3.5p" = 7/2 ∧
    (∀ (cfg : Config) (grid : Grid) (aptId : ℤ) (cells : List Pos) (aptType : String),
      touchesCirculation cfg cells = true →
      (∀ m, cfg.maxEnfiladeCellsPerApartment = some m → countEnfiladeCells cells ≤ m) →
      (checkConstraints cfg grid aptId cells aptType = true ↔
        facadeRequirements cfg aptType ≤ (countFacadeCells cfg cells : ℤ))) := by
  refine ⟨?_, ?_, ?_⟩
  · intro cfg aptType hnone
    have h32 : Rat.divInt 3 2 = (3 : ℚ)/2 := by rw [divInt_eq_div']; norm_num
    unfold facadeRequirements
    simp only [hnone, qsub_eq, h32]
    rcases le_or_lt 0 (pyRound (parseRoomCount aptType - 3/2)) with h | h
    · rw [if_neg (by omega), max_eq_right h]
    · rw [if_pos h, max_eq_left (by omega)]
  · have h72 : (7 : ℚ)/2 = Rat.divInt 7 2 := by rw [divInt_eq_div']; norm_num
    rw [h72]
    decide
  · intro cfg grid aptId cells aptType htouch henf
    unfold checkConstraints
    rw [if_neg (by rw [htouch]; exact not_not_intro rfl)]
    by_cases hfac : (countFacadeCells cfg cells : ℤ) < facadeRequirements cfg aptType
    · rw [if_pos hfac]
      constructor
      · intro h; exact absurd h (by simp)
      · intro h; omega
    · rw [if_neg hfac]
      rcases hme : cfg.maxEnfiladeCellsPerApartment with _ | m
      · simp only [hme]
        exact ⟨fun _ => by omega, fun _ => by trivial⟩
      · simp only [hme]
        rw [if_neg (by have := henf m hme; omega)]
        exact ⟨fun _ => by omega, fun _ => rfl⟩

/-- Witness for C7: the default threshold of type `"1.5p"` in the witness
configuration, and a concrete accepted region on its initial grid. -/
theorem facadeThreshold_spec_witness :
    facadeRequirements witnessConfig "1.5p" =
      max 0 (pyRound (parseRoomCount "1.5p" - 3/2)) ∧
    (checkConstraints witnessConfig (initialGrid witnessConfig) 1 [((1 : ℤ), (0 : ℤ))] "1.5p" = true ↔
      facadeRequirements witnessConfig "1.5p" ≤
        (countFacadeCells witnessConfig [((1 : ℤ), (0 : ℤ))] : ℤ)) :=
  ⟨facadeThreshold_spec.1 witnessConfig "1.5p" rfl,
   facadeThreshold_spec.2.2 witnessConfig (initialGrid witnessConfig) 1 _ "1.5p" (by decide)
     (fun m hm => by simp [witnessConfig] at hm)⟩

/-! ### Claim C3: similarity filter -/

theorem distanceThreshold_pos (cfg : Config) (ds : List ShapeDesc) :
    0 < distanceThreshold cfg ds := by
  unfold distanceThreshold
  simp only [qmax_eq, qmin_eq, qmul_eq, qdiv_eq, divInt_eq_div']
  split
  · refine lt_of_lt_of_le (b := ((15 : ℤ) : ℚ) / ((100 : ℤ) : ℚ)) (by norm_num) (le_max_right _ _)
  · refine lt_of_lt_of_le (b := (1 : ℚ) * (((1 : ℤ) : ℚ) / ((10 : ℤ) : ℚ))) (by norm_num) ?_
    rw [one_mul, one_mul]
    exact le_max_left _ _

theorem descDistSq_nonneg (a b : ShapeDesc) : 0 ≤ descDistSq a b := by
  unfold descDistSq
  simp only [qadd_eq, qsq_eq, qsub_eq]
  positivity

theorem mem_filterSimilar_iff (cfg : Config) (placements : List (List Pos))
    (placedApts : List Apt) (hne : placedApts ≠ []) (p : List Pos) :
    p ∈ filterSimilarShapesStrict cfg placements placedApts ↔
      p ∈ placements ∧
      descDistSq (calculateShapeDescriptors p)
          (descriptorMeans (placedApts.map (fun apt => apt.shapeDescriptors))) ≤
        qsq (distanceThreshold cfg (placedApts.map (fun apt => apt.shapeDescriptors))) := by
  unfold filterSimilarShapesStrict
  by_cases hpl : placements = []
  · rw [if_pos (Or.inl hpl)]
    subst hpl
    simp
  · rw [if_neg (by simp [hpl, hne])]
    simp only [List.mem_map, mem_insertionSort, List.mem_filterMap]
    constructor
    · rintro ⟨⟨d2, q⟩, ⟨a, ha, hfa⟩, hsnd⟩
      simp only at hsnd
      subst hsnd
      by_cases hc : descDistSq (calculateShapeDescriptors a)
          (descriptorMeans (placedApts.map (fun apt => apt.shapeDescriptors))) ≤
          qsq (distanceThreshold cfg (placedApts.map (fun apt => apt.shapeDescriptors)))
      · rw [if_pos hc] at hfa
        obtain ⟨hd2, hq⟩ := Prod.mk.injEq .. ▸ Option.some_injective _ hfa
        subst hq
        exact ⟨ha, hc⟩
      · rw [if_neg hc] at hfa
        exact absurd hfa (by simp)
    · rintro ⟨hp, hd⟩
      exact ⟨(descDistSq (calculateShapeDescriptors p)
          (descriptorMeans (placedApts.map (fun apt => apt.shapeDescriptors))), p),
        ⟨p, hp, by rw [if_pos hd]⟩, rfl⟩

theorem filterSimilar_sorted (cfg : Config) (placements : List (List Pos))
    (placedApts : List Apt) (hne : placedApts ≠ []) :
    List.Sorted (· ≤ ·) ((filterSimilarShapesStrict cfg placements placedApts).map
      (fun p => descDistSq (calculateShapeDescriptors p)
        (descriptorMeans (placedApts.map (fun apt => apt.shapeDescriptors))))) := by
  unfold filterSimilarShapesStrict
  by_cases hpl : placements = []
  · rw [if_pos (Or.inl hpl)]; subst hpl; simp
  · rw [if_neg (by simp [hpl, hne])]
    simp only
    set avg := descriptorMeans (placedApts.map (fun apt => apt.shapeDescriptors)) with havg
    set thr := distanceThreshold cfg (placedApts.map (fun apt => apt.shapeDescriptors)) with hthr
    set pairs := placements.filterMap (fun placement =>
      if descDistSq (calculateShapeDescriptors placement) avg ≤ qsq thr
      then some (descDistSq (calculateShapeDescriptors placement) avg, placement)
      else none) with hpairs
    have htot : IsTotal (ℚ × List Pos) (fun a b => a.1 ≤ b.1) := ⟨fun a b => le_total a.1 b.1⟩
    have htrans : IsTrans (ℚ × List Pos) (fun a b => a.1 ≤ b.1) :=
      ⟨fun a b c h1 h2 => le_trans h1 h2⟩
    have hsorted : List.Sorted (fun a b : ℚ × List Pos => a.1 ≤ b.1)
        (List.insertionSort (fun a b => a.1 ≤ b.1) pairs) :=
      List.sorted_insertionSort _ pairs
    have hstore : ∀ pr ∈ List.insertionSort (fun a b : ℚ × List Pos => a.1 ≤ b.1) pairs,
        pr.1 = descDistSq (calculateShapeDescriptors pr.2) avg := by
      intro pr hpr
      rw [mem_insertionSort, hpairs, List.mem_filterMap] at hpr
      obtain ⟨a, _, hfa⟩ := hpr
      by_cases hc : descDistSq (calculateShapeDescriptors a) avg ≤ qsq thr
      · rw [if_pos hc] at hfa
        obtain ⟨h1, h2⟩ := Prod.mk.injEq .. ▸ Option.some_injective _ hfa
        rw [← h1, ← h2]
      · rw [if_neg hc] at hfa; exact absurd hfa (by simp)
    rw [List.map_map, List.Sorted, List.pairwise_map]
    refine List.Pairwise.imp_of_mem ?_ hsorted
    intro a b ha hb hr
    have hda := hstore a ha
    have hdb := hstore b hb
    simp only [Function.comp]
    rw [← hda, ← hdb]
    exact hr

/-- C3: with no apartments placed the candidates pass unchanged; the distance
threshold is `1.0 * clamp(100 / weight, 0.1, 2.0)`, tightened to
`max(0.7 * threshold, 0.15)` when the current population variance of the
placed descriptors is below `0.01`; and with apartments placed a candidate is
kept iff the Euclidean distance of its raw 3-descriptor vector to the mean of
the placed descriptors is at most that threshold, the kept candidates sorted
ascending by that distance. -/
theorem similarityFilter_spec :
    (∀ (cfg : Config) (placements : List (List Pos)),
      filterSimilarShapesStrict cfg placements [] = placements) ∧
    (∀ (cfg : Config) (ds : List ShapeDesc),
      distanceThreshold cfg ds =
        (if calculateShapeVariance ds < 1/100
         then max ((1 * max (1/10) (min 2 (100 / cfg.shapeVarianceWeight))) * (7/10)) (15/100)
         else 1 * max (1/10) (min 2 (100 / cfg.shapeVarianceWeight)))) ∧
    (∀ (cfg : Config) (placements : List (List Pos)) (placedApts : List Apt),
      placedApts ≠ [] →
      (∀ p, p ∈ filterSimilarShapesStrict cfg placements placedApts ↔
          p ∈ placements ∧
          Real.sqrt ((descDistSq (calculateShapeDescriptors p)
              (descriptorMeans (placedApts.map (fun apt => apt.shapeDescriptors))) : ℚ) : ℝ) ≤
            ((distanceThreshold cfg (placedApts.map (fun apt => apt.shapeDescriptors)) : ℚ) : ℝ)) ∧
      List.Sorted (· ≤ ·)
        ((filterSimilarShapesStrict cfg placements placedApts).map (fun p =>
          Real.sqrt ((descDistSq (calculateShapeDescriptors p)
            (descriptorMeans (placedApts.map (fun apt => apt.shapeDescriptors))) : ℚ) : ℝ)))) := by
  have hkey : ∀ d2 thr : ℚ, 0 ≤ d2 → 0 < thr →
      (d2 ≤ qsq thr ↔ Real.sqrt ((d2 : ℚ) : ℝ) ≤ ((thr : ℚ) : ℝ)) := by
    intro d2 thr _ hthr
    have hcast : ((qsq thr : ℚ) : ℝ) = ((thr : ℚ) : ℝ) ^ 2 := by
      rw [qsq_eq]; push_cast; ring
    rw [Real.sqrt_le_left (by exact_mod_cast hthr.le), ← hcast]
    exact_mod_cast Iff.rfl
  refine ⟨?_, ?_, ?_⟩
  · intro cfg placements
    unfold filterSimilarShapesStrict
    rw [if_pos (Or.inr rfl)]
  · intro cfg ds
    unfold distanceThreshold
    simp only [qmax_eq, qmin_eq, qmul_eq, qdiv_eq, divInt_eq_div']
    norm_num
  · intro cfg placements placedApts hne
    constructor
    · intro p
      rw [mem_filterSimilar_iff cfg placements placedApts hne p]
      rw [hkey _ _ (descDistSq_nonneg _ _) (distanceThreshold_pos _ _)]
    · have hq := filterSimilar_sorted cfg placements placedApts hne
      rw [List.Sorted, List.pairwise_map] at hq ⊢
      refine List.Pairwise.imp (fun h => ?_) hq
      exact Real.sqrt_le_sqrt (by exact_mod_cast h)

/-- Witness for C3 at a concrete input: one placed apartment and one candidate
region on the witness configuration. -/
theorem similarityFilter_spec_witness :
    ([((0 : ℤ), (1 : ℤ))] ∈
        filterSimilarShapesStrict witnessConfig [[((0 : ℤ), (1 : ℤ))]] [witnessApt] ↔
      [((0 : ℤ), (1 : ℤ))] ∈ [[((0 : ℤ), (1 : ℤ))]] ∧
      Real.sqrt ((descDistSq (calculateShapeDescriptors [((0 : ℤ), (1 : ℤ))])
          (descriptorMeans ([witnessApt].map (fun apt => apt.shapeDescriptors))) : ℚ) : ℝ) ≤
        ((distanceThreshold witnessConfig
          ([witnessApt].map (fun apt => apt.shapeDescriptors)) : ℚ) : ℝ)) ∧
    List.Sorted (· ≤ ·)
      ((filterSimilarShapesStrict witnessConfig [[((0 : ℤ), (1 : ℤ))]] [witnessApt]).map (fun p =>
        Real.sqrt ((descDistSq (calculateShapeDescriptors p)
          (descriptorMeans ([witnessApt].map (fun apt => apt.shapeDescriptors))) : ℚ) : ℝ))) :=
  ⟨(similarityFilter_spec.2.2 witnessConfig [[((0 : ℤ), (1 : ℤ))]] [witnessApt] (by decide)).1
      [((0 : ℤ), (1 : ℤ))],
   (similarityFilter_spec.2.2 witnessConfig [[((0 : ℤ), (1 : ℤ))]] [witnessApt] (by decide)).2⟩

/-! ### Claim C10 (corrected): construction-time validation -/

/-- Counterexample for C10 as stated: a construction with non-positive grid
dimensions and a non-positive apartment size is accepted, as is one with an
empty apartment list; nothing is rejected at construction time, and the
degenerate search then simply returns no solutions. -/
theorem initValidation_counterexample :
    initSolver 1 1 0 0 [] [("1p", 0)] 10 none true none none 100 (Rat.divInt 3 2) 30 =
      Except.ok degenerateConfig ∧
    initSolver 4 4 1 1 [] [] 0 none false none none 100 (Rat.divInt 3 2) 30 =
      Except.ok capConfig ∧
    solve degenerateConfig = [] :=
  ⟨rfl, rfl, by decide⟩

/-- C10 amended: the constructor performs no value-level validation at all —
every configuration is accepted (`Except.ok`), and degenerate configurations
flow into the search instead of being rejected. -/
theorem initSolver_never_rejects :
    ∀ (gridX gridY : ℚ) (nCellsX nCellsY : ℤ) (circulationCells : List Pos)
      (apartmentsToPlace : List (String × ℚ)) (maxSolutions : ℕ)
      (minFacadeCells : Option (List (String × ℤ))) (useFineGrid : Bool)
      (fineCirculationCells : Option (List Pos)) (maxEnfiladeCellsPerApartment : Option ℕ)
      (shapeVarianceWeight varianceFilterThreshold : ℚ) (maxPlacementTries : ℕ),
      ∃ cfg : Config,
        initSolver gridX gridY nCellsX nCellsY circulationCells apartmentsToPlace
          maxSolutions minFacadeCells useFineGrid fineCirculationCells
          maxEnfiladeCellsPerApartment shapeVarianceWeight varianceFilterThreshold
          maxPlacementTries = Except.ok cfg ∧
        cfg.nCellsX = nCellsX ∧ cfg.nCellsY = nCellsY ∧
        cfg.apartmentList = apartmentsToPlace :=
  fun _ _ _ _ _ _ _ _ _ _ _ _ _ _ => ⟨_, rfl, rfl, rfl, rfl⟩

/-! ### Claim C6 (corrected): the global solution budget -/

/-- Counterexample for C6 as stated: with `max_solutions = 0` the budget
`max_solutions * 200 = 0` is already reached when the search starts, yet the
leaf call of `_backtrack` (taken before the budget check) still records a
solution, so the recorded count exceeds the budget. -/
theorem budgetCap_counterexample :
    capConfig.maxSolutions * 200 = 0 ∧
    (runSolver capConfig).solutions.length = 1 ∧
    ¬ ((runSolver capConfig).solutions.length ≤ capConfig.maxSolutions * 200) := by
  refine ⟨rfl, by decide, by decide⟩

/-- C6 amended: once the recorded count has reached `max_solutions * 200`, a
`_backtrack` call with apartments still to place returns immediately without
exploring or recording anything; only the leaf calls (all apartments placed)
bypass the budget check, which is how the count can exceed the budget. -/
theorem budgetCap_amended :
    ∀ (cfg : Config) (grid : Grid) (apts : List (String × ℚ)) (idx : ℕ)
      (placed : List Apt) (st : SolverState),
      idx < apts.length →
      cfg.maxSolutions * 200 ≤ st.solutions.length →
      backtrack cfg grid apts idx placed st = st := by
  intro cfg grid apts idx placed st hidx hcap
  unfold backtrack
  obtain ⟨m, hm⟩ : ∃ m, apts.length + 1 - idx = m + 1 := ⟨apts.length - idx, by omega⟩
  rw [hm]
  simp only [backtrackGo]
  rw [dif_neg (by omega : ¬ apts.length ≤ idx), if_pos hcap]

/-- Witness for the amended C6: a concrete at-budget call with one apartment
left returns its state unchanged. -/
theorem budgetCap_amended_witness :
    0 < ([(("1p" : String), (1 : ℚ))]).length ∧
    backtrack capConfig (initialGrid capConfig) [("1p", 1)] 0 [] ⟨[], []⟩ = ⟨[], []⟩ :=
  ⟨by decide,
   budgetCap_amended capConfig (initialGrid capConfig) [("1p", 1)] 0 [] ⟨[], []⟩
     (by decide) (by decide)⟩

/-! ### Backtracker invariants (claims C1, C4, C5, C8) -/

theorem mem_filterSimilar (cfg : Config) (placements : List (List Pos))
    (placedApts : List Apt) {p : List Pos}
    (hp : p ∈ filterSimilarShapesStrict cfg placements placedApts) : p ∈ placements := by
  unfold filterSimilarShapesStrict at hp
  split at hp
  · exact hp
  · simp only [List.mem_map, mem_insertionSort, List.mem_filterMap] at hp
    obtain ⟨⟨d2, q⟩, ⟨a, ha, hfa⟩, hsnd⟩ := hp
    split at hfa
    · obtain ⟨_, h2⟩ := Prod.mk.injEq .. ▸ Option.some_injective _ hfa
      simp only at hsnd
      rw [← hsnd, ← h2]
      exact ha
    · exact absurd hfa (by simp)

theorem mem_sortedByCompactness {l : List (List Pos)} {p : List Pos}
    (hp : p ∈ (List.insertionSort (fun a b : ℚ × List Pos => b.1 ≤ a.1)
      (l.map (fun placement => (calculateCompactness placement, placement)))).map
        (fun x => x.2)) : p ∈ l := by
  rw [List.mem_map] at hp
  obtain ⟨pr, hpr, hsnd⟩ := hp
  rw [mem_insertionSort, List.mem_map] at hpr
  obtain ⟨a, ha, hfa⟩ := hpr
  rw [← hsnd, ← hfa]
  exact ha

theorem gridWF_stamp {cfg : Config} {g : Grid} (hwf : GridWF cfg g)
    (cells : List Pos) (v : ℤ) : GridWF cfg (stampPlacement g cells v) := by
  induction cells generalizing g with
  | nil => exact hwf
  | cons c cs ih => exact ih (gridWF_setCell hwf c.2 c.1 v)

theorem grid_get_stamp {cfg : Config} {g : Grid} (hwf : GridWF cfg g)
    {cells : List Pos} (hc : ∀ c ∈ cells, inGridBounds cfg c) (v : ℤ)
    {y x : ℤ} (hb : inGridBounds cfg (x, y)) :
    Grid.get (stampPlacement g cells v) y x =
      if (x, y) ∈ cells then v else Grid.get g y x := by
  induction cells generalizing g with
  | nil => simp [stampPlacement]
  | cons c cs ih =>
    have hcb := hc c (List.mem_cons_self c cs)
    have hwf' := gridWF_setCell hwf c.2 c.1 v
    have hstep := ih hwf' (fun d hd => hc d (List.mem_cons_of_mem c hd))
    show Grid.get (stampPlacement (Grid.setCell g c.2 c.1 v) cs v) y x = _
    rw [hstep]
    by_cases hmem : (x, y) ∈ cs
    · rw [if_pos hmem, if_pos (List.mem_cons_of_mem c hmem)]
    · rw [if_neg hmem]
      by_cases heq : (x, y) = c
      · subst heq
        rw [if_pos (List.mem_cons_self _ _)]
        obtain ⟨hx0, hx1, hy0, hy1⟩ : 0 ≤ x ∧ x < cfg.nCellsX ∧ 0 ≤ y ∧ y < cfg.nCellsY := hcb
        obtain ⟨hlen, hrow⟩ := hwf
        have hyl : y.toNat < g.length := by omega
        have hxl : x.toNat < (g.getD y.toNat []).length := by
          rw [hrow _ (by rw [List.getD_eq_getElem g [] hyl]; exact List.getElem_mem hyl)]
          omega
        show Grid.get (Grid.setCell g y x v) y x = v
        exact grid_get_setCell_self g y x v hyl hxl
      · rw [if_neg (by
          intro hcc
          rcases List.mem_cons.mp hcc with h | h
          · exact heq h
          · exact hmem h)]
        apply grid_get_setCell_ne
        obtain ⟨hx0, _, hy0, _⟩ := hb
        obtain ⟨hcx0, _, hcy0, _⟩ := hcb
        have : c.1 ≠ x ∨ c.2 ≠ y := by
          by_contra hcon
          push_neg at hcon
          exact heq (by rw [← hcon.1, ← hcon.2])
        simp only at hx0 hy0 hcx0 hcy0
        omega

theorem initialGrid_vals (cfg : Config) (y x : ℤ) :
    Grid.get (initialGrid cfg) y x = -1 ∨ Grid.get (initialGrid cfg) y x = 0 := by
  unfold initialGrid
  have hbase : ∀ y x : ℤ,
      Grid.get (List.replicate cfg.nCellsY.toNat (List.replicate cfg.nCellsX.toNat 0)) y x = -1 ∨
      Grid.get (List.replicate cfg.nCellsY.toNat (List.replicate cfg.nCellsX.toNat 0)) y x = 0 := by
    intro y x
    right
    simp only [Grid.get, List.getD_eq_getElem?_getD, List.getElem?_replicate]
    by_cases hy : y.toNat < cfg.nCellsY.toNat
    · rw [if_pos hy, Option.getD_some, List.getElem?_replicate]
      by_cases hx : x.toNat < cfg.nCellsX.toNat
      · rw [if_pos hx]; rfl
      · rw [if_neg hx]; rfl
    · rw [if_neg hy]; rfl
  generalize (List.replicate cfg.nCellsY.toNat (List.replicate cfg.nCellsX.toNat (0:ℤ))) = g at hbase ⊢
  induction cfg.circulationCells generalizing g with
  | nil => exact hbase y x
  | cons c cs ih =>
    apply ih
    intro y' x'
    rcases grid_get_setCell_cases g c.2 c.1 (-1) y' x' with h | h
    · rw [h]; exact Or.inl rfl
    · rw [h]; exact hbase y' x'

theorem branchInv_stamp {cfg : Config} {grid : Grid} {placed : List Apt}
    (hwf : GridWF cfg grid) (hinv : BranchInv cfg grid placed)
    {cells : List Pos} (hne : cells ≠ []) (hnd : cells.Nodup) (hconn : ConnectedCells cells)
    (hgood : ∀ c ∈ cells, GoodCell cfg grid c)
    {newApt : Apt} (hcells : newApt.cells = cells)
    (hsize : (cells.length : ℤ) = qfloorZ newApt.size) :
    BranchInv cfg (stampPlacement grid cells ((placed.length : ℤ) + 1)) (placed ++ [newApt]) := by
  obtain ⟨hvals, hapts⟩ := hinv
  have hcb : ∀ c ∈ cells, inGridBounds cfg c := fun c hc => (hgood c hc).1
  have hstamp : ∀ y x : ℤ, inGridBounds cfg (x, y) →
      Grid.get (stampPlacement grid cells ((placed.length : ℤ) + 1)) y x =
        if (x, y) ∈ cells then (placed.length : ℤ) + 1 else Grid.get grid y x :=
    fun y x hb => grid_get_stamp hwf hcb _ hb
  constructor
  · intro y x hy0 hy1 hx0 hx1
    rw [hstamp y x ⟨hx0, hx1, hy0, hy1⟩]
    by_cases hmem : (x, y) ∈ cells
    · rw [if_pos hmem]
      exact Or.inr (Or.inr ⟨placed.length, by simp, rfl⟩)
    · rw [if_neg hmem]
      rcases hvals y x hy0 hy1 hx0 hx1 with h | h | ⟨k, hk, h⟩
      · exact Or.inl h
      · exact Or.inr (Or.inl h)
      · exact Or.inr (Or.inr ⟨k, by simp only [List.length_append, List.length_singleton]; omega, h⟩)
  · intro k apt hk
    rw [List.get?_eq_getElem?, List.getElem?_append] at hk
    by_cases hklen : k < placed.length
    · rw [if_pos hklen] at hk
      obtain ⟨h1, h2, h3, h4, h5, h6⟩ := hapts k apt (by rw [List.get?_eq_getElem?]; exact hk)
      refine ⟨h1, h2, h3, h4, h5, ?_⟩
      intro y x hy0 hy1 hx0 hx1
      rw [hstamp y x ⟨hx0, hx1, hy0, hy1⟩]
      by_cases hmem : (x, y) ∈ cells
      · rw [if_pos hmem]
        constructor
        · intro habs; exfalso; omega
        · intro hmem'
          exfalso
          have hfree : Grid.get grid y x = 0 := (hgood _ hmem).2.1
          have hid := (h6 y x hy0 hy1 hx0 hx1).mpr hmem'
          rw [hfree] at hid
          omega
      · rw [if_neg hmem]
        exact h6 y x hy0 hy1 hx0 hx1
    · rw [if_neg hklen] at hk
      have hkeq : k = placed.length := by
        by_contra hne'
        have : 1 ≤ k - placed.length := by omega
        rw [List.getElem?_eq_none (by simpa using this)] at hk
        exact absurd hk (by simp)
      subst hkeq
      rw [Nat.sub_self] at hk
      have hapt : apt = newApt := by
        have : some apt = some newApt := by rw [← hk]; rfl
        exact Option.some_injective _ this
      subst hapt
      refine ⟨by rw [hcells]; exact hne, by rw [hcells]; exact hnd,
        by rw [hcells]; exact hconn, by rw [hcells]; exact fun c hc => (hgood c hc).1,
        by rw [hcells]; exact hsize, ?_⟩
      intro y x hy0 hy1 hx0 hx1
      rw [hstamp y x ⟨hx0, hx1, hy0, hy1⟩]
      by_cases hmem : (x, y) ∈ cells
      · rw [if_pos hmem]
        exact ⟨fun _ => by rw [hcells]; exact hmem, fun _ => rfl⟩
      · rw [if_neg hmem]
        constructor
        · intro habs
          exfalso
          rcases hvals y x hy0 hy1 hx0 hx1 with h | h | ⟨k', hk', h⟩ <;> rw [habs] at h <;> omega
        · intro hmem'
          rw [hcells] at hmem'
          exact absurd hmem' hmem

theorem backtrackFold_preserves (cfg : Config) (P : SolverState → Prop)
    (grid : Grid) (apts : List (String × ℚ)) (placed : List Apt)
    (aptType : String) (size : ℚ) (fuel : ℕ)
    (hwf : GridWF cfg grid) (hinv : BranchInv cfg grid placed)
    (IH : ∀ (grid : Grid) (idx : ℕ) (placed : List Apt) (st : SolverState),
      GridWF cfg grid → BranchInv cfg grid placed → placed.length = idx → P st →
      P (backtrackGo cfg fuel grid apts idx placed st)) :
    ∀ (l : List (List Pos)) (st : SolverState),
      (∀ pc ∈ l, (∃ start, floodFill cfg grid start (qfloorZ size) = some pc) ∧ pc ≠ []) →
      P st →
      P (l.foldl (fun st placementCells =>
          let newGrid := stampPlacement grid placementCells ((placed.length : ℤ) + 1)
          if checkConstraints cfg newGrid ((placed.length : ℤ) + 1) placementCells aptType then
            let facadeCount := countFacadeCells cfg placementCells
            let halfSide :=
              if isHalfSize size then selectHalfSideAnyBoundary placementCells else none
            if isHalfSize size ∧ halfSide = none then st
            else
              let shapeDesc := calculateShapeDescriptors placementCells
              let newApt : Apt :=
                { type := aptType, size := size, cells := placementCells,
                  facadeCount := facadeCount, usesHalfCell := isHalfSize size,
                  halfSide := halfSide, shapeDescriptors := shapeDesc }
              backtrackGo cfg fuel newGrid apts (placed.length + 1)
                (placed ++ [newApt]) st
          else st) st) := by
  intro l
  induction l with
  | nil => intro st _ hP; exact hP
  | cons pc rest ihl =>
    intro st hmem hP
    rw [List.foldl_cons]
    refine ihl _ (fun q hq => hmem q (List.mem_cons_of_mem pc hq)) ?_
    obtain ⟨⟨start, hff⟩, hne⟩ := hmem pc (List.mem_cons_self pc rest)
    obtain ⟨hlen', hnd, hgc, hgood⟩ := floodFill_some_spec hff
    simp only
    by_cases hcheck : checkConstraints cfg
        (stampPlacement grid pc ((placed.length : ℤ) + 1)) ((placed.length : ℤ) + 1) pc aptType
    case neg => rw [if_neg hcheck]; exact hP
    case pos =>
      rw [if_pos hcheck]
      by_cases hskip : isHalfSize size = true ∧
          (if isHalfSize size then selectHalfSideAnyBoundary pc else none) = none
      case pos => rw [if_pos hskip]; exact hP
      case neg =>
        rw [if_neg hskip]
        refine IH _ (placed.length + 1) _ st (gridWF_stamp hwf pc _)
          (branchInv_stamp hwf hinv hne hnd (growsConn_connected hgc) hgood rfl hlen')
          (by simp) hP

theorem backtrackGo_preserves (cfg : Config) (P : SolverState → Prop)
    (hsave : ∀ (grid : Grid) (placed : List Apt) (st : SolverState),
      GridWF cfg grid → BranchInv cfg grid placed → P st →
      P (saveSolution cfg grid placed st)) :
    ∀ (fuel : ℕ) (grid : Grid) (apts : List (String × ℚ)) (idx : ℕ)
      (placed : List Apt) (st : SolverState),
      GridWF cfg grid → BranchInv cfg grid placed → placed.length = idx → P st →
      P (backtrackGo cfg fuel grid apts idx placed st) := by
  intro fuel
  induction fuel with
  | zero => intro grid apts idx placed st _ _ _ hP; exact hP
  | succ fuel ih =>
    intro grid apts idx placed st hwf hinv hlen hP
    subst hlen
    simp only [backtrackGo]
    by_cases hle : apts.length ≤ placed.length
    case pos =>
      rw [dif_pos hle]
      exact hsave grid placed st hwf hinv hP
    case neg =>
      rw [dif_neg hle]
      by_cases hcap : cfg.maxSolutions * 200 ≤ st.solutions.length
      case pos => rw [if_pos hcap]; exact hP
      case neg =>
        rw [if_neg hcap]
        split
        case isTrue =>
          split
          case isTrue => exact hP
          case isFalse =>
            refine backtrackFold_preserves cfg P grid apts placed _ _ fuel hwf hinv
              (fun g i p s a b c d => ih g apts i p s a b c d) _ st ?_ hP
            intro pc hpc
            have h1 := List.mem_of_mem_take hpc
            exact (findAllPlacements_spec cfg grid _).1 pc
              (mem_sortedByCompactness (mem_filterSimilar cfg _ placed h1))
        case isFalse =>
          split
          case isTrue => exact hP
          case isFalse =>
            refine backtrackFold_preserves cfg P grid apts placed _ _ fuel hwf hinv
              (fun g i p s a b c d => ih g apts i p s a b c d) _ st ?_ hP
            intro pc hpc
            have h1 := List.mem_of_mem_take hpc
            exact (findAllPlacements_spec cfg grid _).1 pc (mem_sortedByCompactness h1)

theorem adjPos_perp_vert (n : Pos) {perp : ℤ} (h : perp ∈ ([1, -1] : List ℤ)) :
    AdjPos n (n.1, n.2 + perp) := by
  simp only [List.mem_cons, List.not_mem_nil, or_false] at h
  rcases h with h | h <;> subst h <;> simp [AdjPos]

theorem adjPos_perp_horiz (n : Pos) {perp : ℤ} (h : perp ∈ ([1, -1] : List ℤ)) :
    AdjPos n (n.1 + perp, n.2) := by
  simp only [List.mem_cons, List.not_mem_nil, or_false] at h
  rcases h with h | h <;> subst h <;> simp [AdjPos]

theorem candidatePairs_facts (cfg : Config) (fineGrid : Grid) (fineCells : List Pos) :
    ∀ pr ∈ candidatePairsFor cfg fineGrid fineCells,
      AdjPos pr.1 pr.2 ∧ ∃ f ∈ fineCells, AdjPos f pr.1 := by
  intro pr hpr
  unfold candidatePairsFor at hpr
  rw [List.mem_flatMap] at hpr
  obtain ⟨f, hf, hpr⟩ := hpr
  rw [List.mem_flatMap] at hpr
  obtain ⟨d, hd, hpr⟩ := hpr
  dsimp only at hpr
  split at hpr
  · exact absurd hpr (List.not_mem_nil _)
  · split at hpr
    · exact absurd hpr (List.not_mem_nil _)
    · split at hpr
      · exact absurd hpr (List.not_mem_nil _)
      · rw [List.mem_append] at hpr
        rcases hpr with hpr | hpr <;> rw [List.mem_filterMap] at hpr
        · obtain ⟨perp, hperp, heq⟩ := hpr
          split at heq
          · have hpr' := Option.some_injective _ heq
            rw [← hpr']
            exact ⟨adjPos_perp_vert _ hperp, ⟨f, hf, adjPos_neighbor f hd⟩⟩
          · exact absurd heq (by simp)
        · obtain ⟨perp, hperp, heq⟩ := hpr
          split at heq
          · have hpr' := Option.some_injective _ heq
            rw [← hpr']
            exact ⟨adjPos_perp_horiz _ hperp, ⟨f, hf, adjPos_neighbor f hd⟩⟩
          · exact absurd heq (by simp)

theorem addHalfCellsGo_spec (cfg : Config) :
    ∀ (pending : List (ℤ × Apt)) (fineGrid : Grid) (acc : List Apt) (fg' : Grid)
      (out : List Apt),
      addHalfCellsGo cfg fineGrid pending acc = some (fg', out) →
      out.length = acc.length + pending.length ∧
      (∀ k, k < acc.length → out[k]? = acc[k]?) ∧
      (∀ j aptId apt, pending[j]? = some (aptId, apt) →
        ∃ apt', out[acc.length + j]? = some apt' ∧
          apt'.cells = apt.cells ∧ apt'.size = apt.size ∧ apt'.type = apt.type ∧
          (isHalfSize apt.size = true →
            ∃ e1 e2, apt'.fineCells = some (expandFine apt.cells ++ [e1, e2]) ∧
              AdjPos e1 e2 ∧ ∃ f ∈ expandFine apt.cells, AdjPos f e1) ∧
          (isHalfSize apt.size = false → apt'.fineCells = some (expandFine apt.cells))) := by
  intro pending
  induction pending with
  | nil =>
    intro fineGrid acc fg' out h
    simp only [addHalfCellsGo, Option.some.injEq, Prod.mk.injEq] at h
    obtain ⟨_, h2⟩ := h
    subst h2
    refine ⟨by simp, fun k _ => rfl, fun j aptId apt hj => absurd hj (by simp)⟩
  | cons hd rest ihp =>
    intro fineGrid acc fg' out h
    obtain ⟨aptId0, aptInfo⟩ := hd
    simp only [addHalfCellsGo] at h
    by_cases hh : isHalfSize aptInfo.size = true
    · rw [if_pos hh] at h
      cases hcp : candidatePairsFor cfg fineGrid (expandFine aptInfo.cells) with
      | nil => rw [hcp] at h; exact absurd h (by simp)
      | cons pr prs =>
        rw [hcp] at h
        obtain ⟨n1, n2⟩ := pr
        obtain ⟨hlen, hpre, hcorr⟩ := ihp _ _ _ _ h
        have hprmem : ((n1, n2) : Pos × Pos) ∈
            candidatePairsFor cfg fineGrid (expandFine aptInfo.cells) := by
          rw [hcp]; exact List.mem_cons_self _ _
        obtain ⟨hadj12, hadjf⟩ := candidatePairs_facts cfg fineGrid (expandFine aptInfo.cells)
          (n1, n2) hprmem
        refine ⟨by rw [hlen]; simp only [List.length_append, List.length_cons,
          List.length_nil]; omega, ?_, ?_⟩
        · intro k hk
          rw [hpre k (by simp only [List.length_append, List.length_cons,
            List.length_nil]; omega),
            List.getElem?_append_left hk]
        · intro j aptId apt hj
          cases j with
          | zero =>
            simp only [List.getElem?_cons_zero, Option.some.injEq, Prod.mk.injEq] at hj
            obtain ⟨_, h2⟩ := hj
            subst h2
            refine ⟨{ aptInfo with usesHalfCell := true, fineCells := some (expandFine aptInfo.cells ++ [n1, n2]) }, ?_, rfl, rfl, rfl, ?_, ?_⟩
            · rw [Nat.add_zero,
                hpre acc.length (by simp only [List.length_append, List.length_cons,
                  List.length_nil]; omega)]
              exact List.getElem?_concat_length acc _
            · intro _
              exact ⟨n1, n2, rfl, hadj12, hadjf⟩
            · intro hfalse
              rw [hfalse] at hh
              exact absurd hh (by simp)
          | succ j' =>
            rw [List.getElem?_cons_succ] at hj
            obtain ⟨apt', hget, hrest⟩ := hcorr j' aptId apt hj
            refine ⟨apt', ?_, hrest⟩
            rw [← hget]
            congr 1
            simp only [List.length_append, List.length_cons, List.length_nil]
            omega
    · rw [if_neg hh] at h
      obtain ⟨hlen, hpre, hcorr⟩ := ihp _ _ _ _ h
      refine ⟨by rw [hlen]; simp only [List.length_append, List.length_cons,
        List.length_nil]; omega, ?_, ?_⟩
      · intro k hk
        rw [hpre k (by simp only [List.length_append, List.length_cons,
          List.length_nil]; omega),
          List.getElem?_append_left hk]
      · intro j aptId apt hj
        cases j with
        | zero =>
          simp only [List.getElem?_cons_zero, Option.some.injEq, Prod.mk.injEq] at hj
          obtain ⟨_, h2⟩ := hj
          subst h2
          refine ⟨{ aptInfo with usesHalfCell := false, fineCells := some (expandFine aptInfo.cells) }, ?_, rfl, rfl, rfl, ?_, ?_⟩
          · rw [Nat.add_zero,
              hpre acc.length (by simp only [List.length_append, List.length_cons,
                List.length_nil]; omega)]
            exact List.getElem?_concat_length acc _
          · intro htrue
            rw [htrue] at hh
            exact absurd rfl hh
          · intro _
            exact rfl
        | succ j' =>
          rw [List.getElem?_cons_succ] at hj
          obtain ⟨apt', hget, hrest⟩ := hcorr j' aptId apt hj
          refine ⟨apt', ?_, hrest⟩
          rw [← hget]
          congr 1
          simp only [List.length_append, List.length_cons, List.length_nil]
          omega

theorem gridWF_initialGrid (cfg : Config) : GridWF cfg (initialGrid cfg) := by
  unfold initialGrid
  have hbase : GridWF cfg (List.replicate cfg.nCellsY.toNat (List.replicate cfg.nCellsX.toNat 0)) := by
    constructor
    · simp
    · intro row hr
      rw [List.eq_of_mem_replicate hr]
      simp
  generalize (List.replicate cfg.nCellsY.toNat (List.replicate cfg.nCellsX.toNat (0:ℤ))) = g at hbase ⊢
  induction cfg.circulationCells generalizing g with
  | nil => simpa
  | cons c cs ih => exact ih _ (gridWF_setCell hbase c.2 c.1 (-1))

theorem withIds_length (apts : List Apt) : (withIds apts).length = apts.length := by
  unfold withIds
  rw [List.length_map, List.enum_length]

theorem withIds_getElem (apts : List Apt) (j : ℕ) :
    (withIds apts)[j]? = (apts[j]?).map (fun a => ((j : ℤ) + 1, a)) := by
  unfold withIds
  rw [List.getElem?_map, List.getElem?_enum]
  cases apts[j]? <;> rfl

theorem updatedWithMetrics_length (apts : List Apt) :
    (updatedWithMetrics apts).length = apts.length := by
  unfold updatedWithMetrics
  rw [List.length_map]

theorem updatedWithMetrics_getElem (apts : List Apt) (k : ℕ) :
    (updatedWithMetrics apts)[k]? = (apts[k]?).map (fun apt =>
      { apt with
          compactness := some (calculateCompactness (apt.fineCells.getD apt.cells)),
          shapeDescriptors := calculateShapeDescriptors (apt.fineCells.getD apt.cells) }) := by
  unfold updatedWithMetrics
  rw [List.getElem?_map]

theorem expandFine_length (cells : List Pos) : (expandFine cells).length = 4 * cells.length := by
  unfold expandFine
  induction cells with
  | nil => rfl
  | cons c cs ih =>
    rw [List.flatMap_cons, List.length_append, ih]
    simp only [List.length_cons, List.length_nil]
    omega

theorem buildSolution_spec (cfg : Config) (grid : Grid) (apartments : List Apt)
    (sol : Solution) (h : buildSolution cfg grid apartments = some sol) :
    sol.grid = grid ∧
    sol.metadata.nCellsX = cfg.nCellsX ∧
    sol.metadata.nCellsY = cfg.nCellsY ∧
    sol.metadata.useFineGrid = cfg.useFineGrid ∧
    sol.metadata.score = -sol.metadata.avgCompactness
      + sol.metadata.shapeVariance * cfg.shapeVarianceWeight ∧
    sol.apartments.length = apartments.length ∧
    (∀ (k : ℕ) (apt : Apt), apartments[k]? = some apt →
      ∃ apt' : Apt, sol.apartments[k]? = some apt' ∧
        apt'.cells = apt.cells ∧ apt'.size = apt.size ∧ apt'.type = apt.type ∧
        (cfg.useFineGrid = true → isHalfSize apt.size = true →
          ∃ e1 e2, apt'.fineCells = some (expandFine apt.cells ++ [e1, e2]) ∧
            AdjPos e1 e2 ∧ ∃ f ∈ expandFine apt.cells, AdjPos f e1) ∧
        (cfg.useFineGrid = true → isHalfSize apt.size = false →
          apt'.fineCells = some (expandFine apt.cells))) := by
  unfold buildSolution at h
  rcases Bool.eq_false_or_eq_true cfg.useFineGrid with hfg | hfg
  · rw [if_pos hfg] at h
    cases hah : addHalfCells cfg grid apartments with
    | none =>
      rw [hah] at h
      exact absurd h (by simp)
    | some p =>
      obtain ⟨fg, apts⟩ := p
      rw [hah] at h
      dsimp only at h
      rw [Option.some.injEq] at h
      subst h
      have hgo : addHalfCellsGo cfg (buildFineGridBase cfg grid) (withIds apartments) []
          = some (fg, apts) := by
        unfold addHalfCells at hah
        rw [if_neg (fun hn => hn hfg)] at hah
        exact hah
      obtain ⟨hlen, _, hcorr⟩ := addHalfCellsGo_spec cfg (withIds apartments) _ [] _ _ hgo
      have hlen' : apts.length = apartments.length := by
        rw [hlen, withIds_length]
        simp
      refine ⟨rfl, rfl, rfl, rfl, by rw [qadd_eq, qneg_eq, qmul_eq],
        by rw [updatedWithMetrics_length]; exact hlen', ?_⟩
      intro k apt hk
      have hw : (withIds apartments)[k]? = some ((k : ℤ) + 1, apt) := by
        rw [withIds_getElem, hk]
        rfl
      obtain ⟨apt2, hget, hcells, hsize, htype, hhalf, hnothalf⟩ :=
        hcorr k ((k : ℤ) + 1) apt hw
      simp only [List.length_nil, Nat.zero_add] at hget
      refine ⟨{ apt2 with compactness := some (calculateCompactness (apt2.fineCells.getD apt2.cells)), shapeDescriptors := calculateShapeDescriptors (apt2.fineCells.getD apt2.cells) }, ?_, hcells, hsize, htype, ?_, ?_⟩
      · rw [updatedWithMetrics_getElem, hget]
        rfl
      · intro _ hhs
        exact hhalf hhs
      · intro _ hhs
        exact hnothalf hhs
  · rw [if_neg (by rw [hfg]; exact Bool.false_ne_true)] at h
    dsimp only at h
    rw [Option.some.injEq] at h
    subst h
    refine ⟨rfl, rfl, rfl, rfl, by rw [qadd_eq, qneg_eq, qmul_eq], updatedWithMetrics_length _, ?_⟩
    intro k apt hk
    refine ⟨{ apt with compactness := some (calculateCompactness (apt.fineCells.getD apt.cells)), shapeDescriptors := calculateShapeDescriptors (apt.fineCells.getD apt.cells) }, ?_, rfl, rfl, rfl, ?_, ?_⟩
    · rw [updatedWithMetrics_getElem, hk]
      rfl
    · intro htrue _
      rw [hfg] at htrue
      exact absurd htrue (by decide)
    · intro htrue _
      rw [hfg] at htrue
      exact absurd htrue (by decide)

theorem branchInv_initial (cfg : Config) : BranchInv cfg (initialGrid cfg) [] := by
  constructor
  · intro y x _ _ _ _
    rcases initialGrid_vals cfg y x with h | h
    · exact Or.inl h
    · exact Or.inr (Or.inl h)
  · intro k apt hk
    rw [List.get?_eq_getElem?] at hk
    exact absurd hk (by simp)

theorem solutionPartitionOK_of_branchInv {cfg : Config} {grid : Grid} {placed : List Apt}
    {sol : Solution} (hinv : BranchInv cfg grid placed)
    (hbs : buildSolution cfg grid placed = some sol) :
    SolutionPartitionOK sol := by
  obtain ⟨hgrid, hnx, hny, _, _, hlen, hcorr⟩ := buildSolution_spec cfg grid placed sol hbs
  obtain ⟨hvals, hapts⟩ := hinv
  constructor
  · intro y x hy0 hy1 hx0 hx1
    rw [hny] at hy1
    rw [hnx] at hx1
    rw [hgrid]
    rcases hvals y x hy0 hy1 hx0 hx1 with hc | hc | ⟨k, hk, hc⟩
    · exact Or.inl hc
    · exact Or.inr (Or.inl hc)
    · exact Or.inr (Or.inr ⟨k, by rw [hlen]; exact hk, hc⟩)
  · intro k apt' hk
    rw [List.get?_eq_getElem?] at hk
    have hklt : k < sol.apartments.length := (List.getElem?_eq_some.mp hk).1
    have hkp : k < placed.length := by rw [← hlen]; exact hklt
    cases hpk : placed[k]? with
    | none =>
      rw [List.getElem?_eq_none_iff] at hpk
      omega
    | some apt0 =>
      obtain ⟨apt2, hget, hcells, hsize, htype, _, _⟩ := hcorr k apt0 hpk
      have happ : apt2 = apt' := Option.some_injective _ (hget.symm.trans hk)
      subst happ
      have hwf := hapts k apt0 (by rw [List.get?_eq_getElem?]; exact hpk)
      obtain ⟨_, _, hconn, _, _, hiff⟩ := hwf
      constructor
      · rw [hcells]
        exact hconn
      · intro y x hy0 hy1 hx0 hx1
        rw [hny] at hy1
        rw [hnx] at hx1
        rw [hgrid, hcells]
        exact hiff y x hy0 hy1 hx0 hx1

/-- C1: every Solution recorded by the search satisfies the
partition-and-connectivity invariant: each in-bounds coarse grid cell is
labelled circulation (`-1`), free (`0`) or the id of one of the recorded
apartments; the cells labelled `k + 1` are exactly apartment `k + 1`'s coarse
cells (so each cell lies in exactly one class); and every apartment's coarse
cell set is 4-connected. -/
theorem partitionInvariant_spec (cfg : Config) :
    ∀ sol ∈ (runSolver cfg).solutions, SolutionPartitionOK sol := by
  have hsave : ∀ (grid : Grid) (placed : List Apt) (st : SolverState),
      GridWF cfg grid → BranchInv cfg grid placed →
      (∀ s ∈ st.solutions, SolutionPartitionOK s) →
      ∀ s ∈ (saveSolution cfg grid placed st).solutions, SolutionPartitionOK s := by
    intro grid placed st _ hinv hP
    cases hbs : buildSolution cfg grid placed with
    | none =>
      have heq : saveSolution cfg grid placed st = st := by
        unfold saveSolution
        rw [hbs]
      rw [heq]
      exact hP
    | some sol' =>
      have heq : saveSolution cfg grid placed st =
          if canonicalSignature sol' ∈ st.seenSignatures then st
          else { solutions := st.solutions ++ [sol'],
                 seenSignatures := st.seenSignatures ++ [canonicalSignature sol'] } := by
        unfold saveSolution
        rw [hbs]
      rw [heq]
      by_cases hmem : canonicalSignature sol' ∈ st.seenSignatures
      · rw [if_pos hmem]
        exact hP
      · rw [if_neg hmem]
        intro s hs
        have hs' : s ∈ st.solutions ++ [sol'] := hs
        rcases List.mem_append.mp hs' with h1 | h1
        · exact hP s h1
        · rw [List.mem_singleton] at h1
          subst h1
          exact solutionPartitionOK_of_branchInv hinv hbs
  intro sol hsol
  exact backtrackGo_preserves cfg (fun st => ∀ s ∈ st.solutions, SolutionPartitionOK s) hsave
    ((sortedAptList cfg).length + 1 - 0) (initialGrid cfg) (sortedAptList cfg) 0 []
    ⟨[], []⟩ (gridWF_initialGrid cfg) (branchInv_initial cfg) rfl
    (fun s hs => absurd hs (List.not_mem_nil s)) sol hsol

/-- Witness for C1 at `witnessConfig`: the first recorded solution of the
concrete run satisfies the partition invariant. -/
theorem partitionInvariant_spec_witness : SolutionPartitionOK wSol :=
  partitionInvariant_spec witnessConfig wSol (by decide)

/-- C8: no two solutions ever recorded share an identical canonical
(type-coded) signature — the `canonicalSignature` grid replaces each
apartment-occupied cell by the 1-based rank of that apartment's type name
among the sorted distinct type names present and leaves free and circulation
cells unchanged — and a finalize whose signature was already seen records
nothing (it leaves the solver state unchanged). -/
theorem canonicalSig_spec :
    (∀ cfg : Config, (runSolver cfg).solutions.Pairwise
        (fun a b => canonicalSignature a ≠ canonicalSignature b)) ∧
    (∀ (cfg : Config) (grid : Grid) (apartments : List Apt) (st : SolverState) (sol : Solution),
      buildSolution cfg grid apartments = some sol →
      canonicalSignature sol ∈ st.seenSignatures →
      saveSolution cfg grid apartments st = st) := by
  constructor
  · intro cfg
    have hsave : ∀ (grid : Grid) (placed : List Apt) (st : SolverState),
        GridWF cfg grid → BranchInv cfg grid placed →
        (st.solutions.Pairwise (fun a b => canonicalSignature a ≠ canonicalSignature b) ∧
          ∀ s ∈ st.solutions, canonicalSignature s ∈ st.seenSignatures) →
        ((saveSolution cfg grid placed st).solutions.Pairwise
            (fun a b => canonicalSignature a ≠ canonicalSignature b) ∧
          ∀ s ∈ (saveSolution cfg grid placed st).solutions,
            canonicalSignature s ∈ (saveSolution cfg grid placed st).seenSignatures) := by
      intro grid placed st _ _ hP
      obtain ⟨hpw, hsig⟩ := hP
      cases hbs : buildSolution cfg grid placed with
      | none =>
        have heq : saveSolution cfg grid placed st = st := by
          unfold saveSolution
          rw [hbs]
        rw [heq]
        exact ⟨hpw, hsig⟩
      | some sol' =>
        have heq : saveSolution cfg grid placed st =
            if canonicalSignature sol' ∈ st.seenSignatures then st
            else { solutions := st.solutions ++ [sol'],
                   seenSignatures := st.seenSignatures ++ [canonicalSignature sol'] } := by
          unfold saveSolution
          rw [hbs]
        rw [heq]
        by_cases hmem : canonicalSignature sol' ∈ st.seenSignatures
        · rw [if_pos hmem]
          exact ⟨hpw, hsig⟩
        · rw [if_neg hmem]
          constructor
          · show (st.solutions ++ [sol']).Pairwise
              (fun a b => canonicalSignature a ≠ canonicalSignature b)
            rw [List.pairwise_append]
            refine ⟨hpw, List.pairwise_singleton _ _, ?_⟩
            intro a ha b hb
            rw [List.mem_singleton] at hb
            subst hb
            intro habs
            exact hmem (habs ▸ hsig a ha)
          · intro s hs
            have hs' : s ∈ st.solutions ++ [sol'] := hs
            show canonicalSignature s ∈ st.seenSignatures ++ [canonicalSignature sol']
            rcases List.mem_append.mp hs' with h1 | h1
            · exact List.mem_append_left _ (hsig s h1)
            · rw [List.mem_singleton] at h1
              subst h1
              exact List.mem_append_right _ (by rw [List.mem_singleton])
    exact (backtrackGo_preserves cfg
      (fun st => st.solutions.Pairwise (fun a b => canonicalSignature a ≠ canonicalSignature b) ∧
        ∀ s ∈ st.solutions, canonicalSignature s ∈ st.seenSignatures) hsave
      ((sortedAptList cfg).length + 1 - 0) (initialGrid cfg) (sortedAptList cfg) 0 []
      ⟨[], []⟩ (gridWF_initialGrid cfg) (branchInv_initial cfg) rfl
      ⟨List.Pairwise.nil, fun s hs => absurd hs (List.not_mem_nil s)⟩).1
  · intro cfg grid apartments st sol hbs hmem
    have heq : saveSolution cfg grid apartments st =
        if canonicalSignature sol ∈ st.seenSignatures then st
        else { solutions := st.solutions ++ [sol],
               seenSignatures := st.seenSignatures ++ [canonicalSignature sol] } := by
      unfold saveSolution
      rw [hbs]
    rw [heq, if_pos hmem]

/-- Witness for C8 at `capConfig`: the concretely recorded solution's
signature is in the seen set, and re-finalizing the same branch on the final
state records nothing. -/
theorem canonicalSig_spec_witness :
    saveSolution capConfig (initialGrid capConfig) [] (runSolver capConfig)
      = runSolver capConfig :=
  canonicalSig_spec.2 capConfig (initialGrid capConfig) [] (runSolver capConfig) capSol
    (by decide) (by decide)

/-- C5 fails as stated: on the concrete `witnessConfig` run the search records
a fine-grid solution whose fractional apartment has its second extra fine
sub-cell adjacent only to the first extra sub-cell, not to the apartment's
existing cells (the pair enumeration prefers perpendicular pairs, whose second
cell need not border the apartment), refuting the claim that both extra
sub-cells are adjacent to the apartment's existing cells. -/
theorem halfCellPair_counterexample :
    ¬ (∀ sol ∈ (runSolver witnessConfig).solutions, ∀ apt ∈ sol.apartments,
        isHalfSize apt.size = true → BothExtrasAdjacent apt) := by decide

/-- C5 (amended): in every recorded solution with the fine grid in use, a
fractional apartment's fine-cell list is the 2x2 expansion of its coarse cells
plus exactly 2 extra sub-cells — `4 * floor(size) + 2` entries in all — and
the extra pair is adjacent, with the first extra sub-cell adjacent to the
apartment's existing fine cells (the second need only touch the first). -/
theorem halfCellPair_amended (cfg : Config) :
    ∀ sol ∈ (runSolver cfg).solutions, ∀ apt ∈ sol.apartments,
      sol.metadata.useFineGrid = true → isHalfSize apt.size = true →
      HalfCellResolved apt := by
  have hsave : ∀ (grid : Grid) (placed : List Apt) (st : SolverState),
      GridWF cfg grid → BranchInv cfg grid placed →
      (∀ s ∈ st.solutions, ∀ apt ∈ s.apartments,
        s.metadata.useFineGrid = true → isHalfSize apt.size = true → HalfCellResolved apt) →
      ∀ s ∈ (saveSolution cfg grid placed st).solutions, ∀ apt ∈ s.apartments,
        s.metadata.useFineGrid = true → isHalfSize apt.size = true → HalfCellResolved apt := by
    intro grid placed st _ hinv hP
    cases hbs : buildSolution cfg grid placed with
    | none =>
      have heq : saveSolution cfg grid placed st = st := by
        unfold saveSolution
        rw [hbs]
      rw [heq]
      exact hP
    | some sol' =>
      have heq : saveSolution cfg grid placed st =
          if canonicalSignature sol' ∈ st.seenSignatures then st
          else { solutions := st.solutions ++ [sol'],
                 seenSignatures := st.seenSignatures ++ [canonicalSignature sol'] } := by
        unfold saveSolution
        rw [hbs]
      rw [heq]
      by_cases hmem : canonicalSignature sol' ∈ st.seenSignatures
      · rw [if_pos hmem]
        exact hP
      · rw [if_neg hmem]
        intro s hs
        have hs' : s ∈ st.solutions ++ [sol'] := hs
        rcases List.mem_append.mp hs' with h1 | h1
        · exact hP s h1
        · rw [List.mem_singleton] at h1
          subst h1
          intro apt hapt hufg hhalf
          obtain ⟨_, _, _, hufg', _, hlen, hcorr⟩ :=
            buildSolution_spec cfg grid placed s hbs
          obtain ⟨k, hk⟩ := List.mem_iff_getElem?.mp hapt
          have hklt : k < s.apartments.length := (List.getElem?_eq_some.mp hk).1
          have hkp : k < placed.length := by rw [← hlen]; exact hklt
          cases hpk : placed[k]? with
          | none =>
            rw [List.getElem?_eq_none_iff] at hpk
            omega
          | some apt0 =>
            obtain ⟨apt2, hget, hcells, hsize, _, hhalfspec, _⟩ := hcorr k apt0 hpk
            have happ : apt2 = apt := Option.some_injective _ (hget.symm.trans hk)
            subst happ
            obtain ⟨e1, e2, hfc, hadj, hf⟩ := hhalfspec (hufg' ▸ hufg)
              (by rw [← hsize]; exact hhalf)
            have hwf := (hinv.2) k apt0 (by rw [List.get?_eq_getElem?]; exact hpk)
            obtain ⟨_, _, _, _, hcount, _⟩ := hwf
            refine ⟨e1, e2, by rw [hfc, hcells], ?_, hadj, ?_⟩
            · rw [hfc]
              simp only [Option.getD_some, List.length_append, expandFine_length,
                List.length_cons, List.length_nil]
              rw [← hsize] at hcount
              push_cast
              omega
            · rw [hcells]
              exact hf
  intro sol hsol
  exact backtrackGo_preserves cfg
    (fun st => ∀ s ∈ st.solutions, ∀ apt ∈ s.apartments,
      s.metadata.useFineGrid = true → isHalfSize apt.size = true → HalfCellResolved apt) hsave
    ((sortedAptList cfg).length + 1 - 0) (initialGrid cfg) (sortedAptList cfg) 0 []
    ⟨[], []⟩ (gridWF_initialGrid cfg) (branchInv_initial cfg) rfl
    (fun s hs => absurd hs (List.not_mem_nil s)) sol hsol

/-- Witness for the amended C5 at `witnessConfig`: the fractional apartment of
the first recorded solution is half-cell-resolved. -/
theorem halfCellPair_amended_witness : HalfCellResolved wApt :=
  halfCellPair_amended witnessConfig wSol (by decide) wApt (by decide) (by decide) (by decide)

/-- C4: every recorded solution's score is
`-avgCompactness + shapeVariance * shape_variance_weight`; `solve` returns a
list sorted ascending by score, of length at most `max_solutions`, drawn from
the recorded solutions; and when the recorded count exceeds `max_solutions`,
the surviving pre-truncation list either consists exactly of solutions whose
shape variance is at most the variance ceiling (average variance of the best
`max(3, count / 5)` solutions times the configured multiplier) or falls back
to the best 3 raw solutions, and it always keeps at least `min(3, count)`
solutions. -/
theorem rankingPipeline_spec (cfg : Config) :
    (∀ sol ∈ (runSolver cfg).solutions,
      sol.metadata.score = -sol.metadata.avgCompactness
        + sol.metadata.shapeVariance * cfg.shapeVarianceWeight) ∧
    List.Sorted (fun a b : Solution => a.metadata.score ≤ b.metadata.score) (solve cfg) ∧
    (solve cfg).length ≤ cfg.maxSolutions ∧
    (∀ sol ∈ solve cfg, sol ∈ (runSolver cfg).solutions) ∧
    (cfg.maxSolutions < (runSolver cfg).solutions.length →
      min 3 (runSolver cfg).solutions.length ≤ (filteredSolutions cfg).length ∧
      ((∀ sol ∈ filteredSolutions cfg,
          sol.metadata.shapeVariance ≤ varianceCeiling cfg (sortedSolutions cfg)) ∨
        filteredSolutions cfg =
          (sortedSolutions cfg).take (min 3 (sortedSolutions cfg).length))) := by
  have hperm : List.Perm (List.insertionSort
      (fun s t : Solution => s.metadata.score ≤ t.metadata.score)
      (runSolver cfg).solutions) (runSolver cfg).solutions :=
    List.perm_insertionSort _ _
  have hlensorted : (sortedSolutions cfg).length = (runSolver cfg).solutions.length :=
    hperm.length_eq
  have hsorted : List.Sorted (fun a b : Solution => a.metadata.score ≤ b.metadata.score)
      (sortedSolutions cfg) := by
    haveI ht : IsTotal Solution (fun a b => a.metadata.score ≤ b.metadata.score) :=
      ⟨fun a b => le_total _ _⟩
    haveI htr : IsTrans Solution (fun a b => a.metadata.score ≤ b.metadata.score) :=
      ⟨fun a b c hab hbc => le_trans hab hbc⟩
    exact List.sorted_insertionSort _ _
  have hfil : List.Sorted (fun a b : Solution => a.metadata.score ≤ b.metadata.score)
      (filteredSolutions cfg) := by
    unfold filteredSolutions
    dsimp only
    split
    · split
      · exact List.Pairwise.sublist (List.take_sublist _ _) hsorted
      · exact hsorted.filter _
    · exact hsorted
  refine ⟨?_, ?_, ?_, ?_, ?_⟩
  · have hsave : ∀ (grid : Grid) (placed : List Apt) (st : SolverState),
        GridWF cfg grid → BranchInv cfg grid placed →
        (∀ s ∈ st.solutions, s.metadata.score = -s.metadata.avgCompactness
          + s.metadata.shapeVariance * cfg.shapeVarianceWeight) →
        ∀ s ∈ (saveSolution cfg grid placed st).solutions,
          s.metadata.score = -s.metadata.avgCompactness
            + s.metadata.shapeVariance * cfg.shapeVarianceWeight := by
      intro grid placed st _ _ hP
      cases hbs : buildSolution cfg grid placed with
      | none =>
        have heq : saveSolution cfg grid placed st = st := by
          unfold saveSolution
          rw [hbs]
        rw [heq]
        exact hP
      | some sol' =>
        have heq : saveSolution cfg grid placed st =
            if canonicalSignature sol' ∈ st.seenSignatures then st
            else { solutions := st.solutions ++ [sol'],
                   seenSignatures := st.seenSignatures ++ [canonicalSignature sol'] } := by
          unfold saveSolution
          rw [hbs]
        rw [heq]
        by_cases hmem : canonicalSignature sol' ∈ st.seenSignatures
        · rw [if_pos hmem]
          exact hP
        · rw [if_neg hmem]
          intro s hs
          have hs' : s ∈ st.solutions ++ [sol'] := hs
          rcases List.mem_append.mp hs' with h1 | h1
          · exact hP s h1
          · rw [List.mem_singleton] at h1
            subst h1
            exact (buildSolution_spec cfg grid placed s hbs).2.2.2.2.1
    intro sol hsol
    exact backtrackGo_preserves cfg
      (fun st => ∀ s ∈ st.solutions, s.metadata.score = -s.metadata.avgCompactness
        + s.metadata.shapeVariance * cfg.shapeVarianceWeight) hsave
      ((sortedAptList cfg).length + 1 - 0) (initialGrid cfg) (sortedAptList cfg) 0 []
      ⟨[], []⟩ (gridWF_initialGrid cfg) (branchInv_initial cfg) rfl
      (fun s hs => absurd hs (List.not_mem_nil s)) sol hsol
  · exact List.Pairwise.sublist (List.take_sublist _ _) hfil
  · show ((filteredSolutions cfg).take cfg.maxSolutions).length ≤ cfg.maxSolutions
    rw [List.length_take]
    exact Nat.min_le_left _ _
  · intro s hs
    have h1 : s ∈ filteredSolutions cfg := List.mem_of_mem_take hs
    have h2 : s ∈ sortedSolutions cfg := by
      revert h1
      unfold filteredSolutions
      dsimp only
      split
      · split
        · exact fun h => List.mem_of_mem_take h
        · exact fun h => List.mem_of_mem_filter h
      · exact id
    exact hperm.mem_iff.mp h2
  · intro hcount
    have hcond : cfg.maxSolutions < (sortedSolutions cfg).length := by
      rw [hlensorted]
      exact hcount
    have heq : filteredSolutions cfg =
        (if ((sortedSolutions cfg).filter (fun s =>
              decide (s.metadata.shapeVariance ≤ varianceCeiling cfg (sortedSolutions cfg)))).length < 3
         then (sortedSolutions cfg).take (min 3 (sortedSolutions cfg).length)
         else (sortedSolutions cfg).filter (fun s =>
              decide (s.metadata.shapeVariance ≤ varianceCeiling cfg (sortedSolutions cfg)))) := by
      unfold filteredSolutions
      dsimp only
      rw [if_pos hcond]
    rw [heq]
    by_cases hk : ((sortedSolutions cfg).filter (fun s =>
        decide (s.metadata.shapeVariance ≤ varianceCeiling cfg (sortedSolutions cfg)))).length < 3
    · rw [if_pos hk]
      constructor
      · rw [List.length_take, ← hlensorted]
        omega
      · exact Or.inr rfl
    · rw [if_neg hk]
      constructor
      · have h3 : min 3 ((runSolver cfg).solutions.length) ≤ 3 := Nat.min_le_left _ _
        omega
      · left
        intro s hs
        exact of_decide_eq_true (List.mem_filter.mp hs).2

/-- Witness for C4 at `capConfig` (one recorded solution, `max_solutions = 0`,
so the post-filter branch is exercised): the concrete solution's score obeys
the formula and the filtered list keeps at least `min(3, count)` solutions. -/
theorem rankingPipeline_spec_witness :
    capSol.metadata.score = -capSol.metadata.avgCompactness
        + capSol.metadata.shapeVariance * capConfig.shapeVarianceWeight ∧
    (min 3 (runSolver capConfig).solutions.length ≤ (filteredSolutions capConfig).length ∧
      ((∀ sol ∈ filteredSolutions capConfig,
          sol.metadata.shapeVariance ≤ varianceCeiling capConfig (sortedSolutions capConfig)) ∨
        filteredSolutions capConfig =
          (sortedSolutions capConfig).take (min 3 (sortedSolutions capConfig).length))) :=
  ⟨(rankingPipeline_spec capConfig).1 capSol (by decide),
   (rankingPipeline_spec capConfig).2.2.2.2 (by decide)⟩

end PlanMix
